import Mathlib

/-!
Shallow embedding of the access-decision and enforcement engine of the
ubuntu-parental-control repository, together with proofs checking the
natural-language specification against the code.

The Python source is embedded as executable Lean definitions:

* `src/parental_control/time_management.py`  — schedule evaluation and the
  time/usage part of the decision engine (`TimeManager`);
* `src/parental_control/parental_control.py` — the full decision engine
  (`ParentalControl.is_access_allowed`);
* `src/parental_control/database.py`         — the rule-store queries used by
  the decision engine (`is_site_blocked`, `is_domain_in_blacklist`,
  `add_blacklist_domains`, `add_blacklist_category`);
* `src/parental_control/validation.py`       — `InputValidator.validate_domain`;
* `src/parental_control/hosts_manager.py`    — the pure content transformation
  performed by `HostsFileManager.update_blocked_domains` and its helpers;
* `src/parental_control/network_enforcer.py` — the rule-list state machine of
  `NetworkEnforcer`;
* `src/parental_control/blacklist_manager.py`— the control flow of
  `BlacklistManager.update_blacklist`.

Strings from the Python side are modelled as `List Char` (ASCII fragment);
`datetime.time` values as hour/minute pairs compared lexicographically,
exactly as Python compares `datetime.time`; `datetime.now()` readings are
explicit parameters.
-/

/-! ## Python string primitives -/

/-- Characters treated as whitespace by Python's `str.strip` / `str.split`
(ASCII fragment). -/
def pyWhitespace (c : Char) : Bool :=
  c = ' ' || c = '\t' || c = '\n' || c = '\x0d' || c = '\x0b' || c = '\x0c'

/-- Python `str.strip()`: drop whitespace from both ends. -/
def pyStrip (l : List Char) : List Char :=
  ((l.dropWhile pyWhitespace).reverse.dropWhile pyWhitespace).reverse

/-- Python `str.lower()` (ASCII fragment). -/
def pyLower (l : List Char) : List Char :=
  l.map Char.toLower

/-- String literal to character list. -/
def strL (s : String) : List Char := s.toList

/-- Python `s.split(sep)` for a single-character separator. -/
def splitOnChar (sep : Char) : List Char → List (List Char)
  | [] => [[]]
  | c :: rest =>
    let r := splitOnChar sep rest
    if c = sep then [] :: r
    else
      match r with
      | [] => [[c]]
      | h :: t => (c :: h) :: t

/-- Python `sep.join(parts)` for a single-character separator. -/
def joinChar (sep : Char) : List (List Char) → List Char
  | [] => []
  | [l] => l
  | l :: rest => l ++ sep :: joinChar sep rest

/-- Python `str.split()` with no argument: split on whitespace runs,
producing no empty parts. -/
def pySplitWS : List Char → List (List Char)
  | [] => []
  | c :: rest =>
    let r := pySplitWS rest
    if pyWhitespace c then r
    else
      match rest with
      | [] => [[c]]
      | c2 :: _ =>
        if pyWhitespace c2 then [c] :: r
        else
          match r with
          | [] => [[c]]
          | h :: t => (c :: h) :: t

/-- Fuel-driven digit expansion (structural recursion so that the kernel
can evaluate it; the fuel is always sufficient). -/
def natDigitsAux (fuel n : Nat) : List Char :=
  match fuel with
  | 0 => []
  | f + 1 =>
    if n < 10 then [Char.ofNat (48 + n)]
    else natDigitsAux f (n / 10) ++ [Char.ofNat (48 + n % 10)]

/-- Decimal rendering of a natural number, as Python's `f"{n}"`. -/
def natDigits (n : Nat) : List Char := natDigitsAux (n + 1) n

/-- Python `p in s` (substring test), via the decidable infix relation. -/
def containsSub (p l : List Char) : Bool := decide (p <:+: l)

/-- Python `s.startswith(p)`. -/
def startsWith (p l : List Char) : Bool := decide (p <+: l)

/-- Python `s.endswith(p)`. -/
def endsWith (p l : List Char) : Bool := decide (p <:+ l)

/-! ## Character classes shared by `validation.py` and `hosts_manager.py` -/

/-- The regex class `[a-zA-Z0-9]`. -/
def isAlnumA (c : Char) : Bool :=
  (decide ('a' ≤ c) && decide (c ≤ 'z')) ||
  (decide ('A' ≤ c) && decide (c ≤ 'Z')) ||
  (decide ('0' ≤ c) && decide (c ≤ '9'))

/-- The regex class `[a-zA-Z0-9-]`. -/
def isLabelChar (c : Char) : Bool := isAlnumA c || c = '-'

/-- One domain label, per the regex
`[a-zA-Z0-9]([a-zA-Z0-9-]{0,61}[a-zA-Z0-9])?`: 1–63 characters, first and
last alphanumeric, interior alphanumeric or hyphen. -/
def isValidLabel (s : List Char) : Bool :=
  match s with
  | [] => false
  | c :: rest =>
    match rest.reverse with
    | [] => isAlnumA c
    | last :: mid => isAlnumA c && isAlnumA last && mid.all isLabelChar &&
        decide (s.length ≤ 63)

/-- The anchored domain regex of `validation.py` (`DOMAIN_PATTERN`) and
`hosts_manager.py` (`_clean_domains`): dot-separated valid labels.  Both
regexes denote the same language. -/
def domainPatternMatch (s : List Char) : Bool :=
  (splitOnChar '.' s).all isValidLabel

/-- One octet of `validation.py`'s `IP_PATTERN`
(`25[0-5]|2[0-4][0-9]|[01]?[0-9][0-9]?`). -/
def isOctet (s : List Char) : Bool :=
  s.all (·.isDigit) &&
  (match s with
   | [_] => true
   | [_, _] => true
   | [a, b, c] =>
     a = '0' || a = '1' ||
     (a = '2' && (decide (b < '5') || (b = '5' && decide (c ≤ '5'))))
   | _ => false)

/-- `validation.py`'s `IP_PATTERN`: a dotted quad of octets. -/
def ipPatternMatch (s : List Char) : Bool :=
  match splitOnChar '.' s with
  | [a, b, c, d] => isOctet a && isOctet b && isOctet c && isOctet d
  | _ => false

/-! ## `validation.py`: `InputValidator.validate_domain` -/

/-- Characters ending the netloc in `urllib.parse.urlparse`. -/
def netlocEnd (c : Char) : Bool := c = '/' || c = '?' || c = '#'

/-- The `'://' in domain` branch of `validate_domain`: build a URL (prefixing
`http://` unless the string already starts with `http://` or `https://`),
parse it, and take `parsed.netloc or parsed.path.split('/')[0]`. -/
def stripScheme (d : List Char) : List Char :=
  let url :=
    if startsWith (strL "http://") d || startsWith (strL "https://") d then d
    else strL "http://" ++ d
  let rest := if startsWith (strL "https://") url then url.drop 8 else url.drop 7
  let netloc := rest.takeWhile (fun c => !netlocEnd c)
  if netloc.isEmpty then
    (rest.takeWhile (fun c => !(c = '?' || c = '#'))).takeWhile (fun c => !(c = '/'))
  else netloc

/-- The removal chain in the middle of `validate_domain`: scheme (via
`urlparse`), leading `www.`, path after `/`, port after `:` (unless the
string is a dotted-quad IP). -/
def normalizeCore (domain0 : List Char) : List Char :=
  let domain := if containsSub (strL "://") domain0 then stripScheme domain0 else domain0
  let domain := if startsWith (strL "www.") domain then domain.drop 4 else domain
  let domain := if domain.contains '/' then domain.takeWhile (fun c => !(c = '/')) else domain
  if domain.contains ':' && !ipPatternMatch domain then
    domain.takeWhile (fun c => !(c = ':'))
  else domain

/-- `InputValidator.validate_domain`: strip/lowercase, length and emptiness
checks, scheme/`www.`/path/port removal, then the anchored domain regex and
the dot checks.  `none` models a raised `ValidationError`. -/
def validate_domain (domain0 : List Char) : Option (List Char) :=
  let domain := pyLower (pyStrip domain0)
  if domain.isEmpty then none
  else if decide (253 < domain.length) then none
  else
    let domain := normalizeCore domain
    if !domainPatternMatch domain then none
    else if startsWith (strL ".") domain || endsWith (strL ".") domain then none
    else if containsSub (strL "..") domain then none
    else some domain

/-! ## `time_management.py`: schedule evaluation and the time/usage verdict -/

/-- A `datetime.time` value (seconds are always zero in this code path,
since schedule times are parsed from `HH:MM` strings). -/
structure PCTime where
  hour : Nat
  minute : Nat
deriving DecidableEq, Repr

/-- Python `datetime.time` comparison `a <= b` (lexicographic). -/
def timeLe (a b : PCTime) : Bool :=
  decide (a.hour < b.hour ∨ (a.hour = b.hour ∧ a.minute ≤ b.minute))

/-- Python `datetime.time` comparison `a > b`. -/
def timeGt (a b : PCTime) : Bool :=
  decide (b.hour < a.hour ∨ (b.hour = a.hour ∧ b.minute < a.minute))

/-- A schedule record, with `start_time`/`end_time` already parsed from their
`HH:MM` string form (`TimeManager._parse_time`). -/
structure Schedule where
  start_time : PCTime
  end_time : PCTime
  days : List Nat
  is_active : Bool
deriving DecidableEq, Repr

/-- `TimeManager._is_time_in_schedule`: same-day containment check. -/
def is_time_in_schedule (current_time : PCTime) (s : Schedule) : Bool :=
  if timeLe s.start_time s.end_time then
    timeLe s.start_time current_time && timeLe current_time s.end_time
  else
    timeLe s.start_time current_time

/-- `TimeManager._is_time_in_overnight_schedule`: next-day portion of an
overnight window. -/
def is_time_in_overnight_schedule (current_time : PCTime) (s : Schedule) : Bool :=
  if timeGt s.start_time s.end_time then
    timeLe current_time s.end_time
  else
    false

/-- The previous weekday as computed in `TimeManager._check_schedules`
(`6 if current_weekday == 0 else current_weekday - 1`). -/
def prevWeekday (w : Nat) : Nat :=
  if w = 0 then 6 else w - 1

/-- `TimeManager._check_schedules`: the current weekday/time is inside some
active schedule.  `get_time_schedules(active_only=True)` is modelled by the
`is_active` filter. -/
def check_schedules (w : Nat) (t : PCTime) (schedules : List Schedule) : Bool :=
  (schedules.filter (·.is_active)).any fun s =>
    (s.days.contains w && is_time_in_schedule t s) ||
    (s.days.contains (prevWeekday w) && is_time_in_overnight_schedule t s)

/-- The daily usage limit record returned by `get_daily_usage_limit`. -/
structure DailyLimit where
  time_limit_minutes : Nat
  is_active : Bool
deriving DecidableEq, Repr

/-- The slice of the rule store consulted by `TimeManager`. -/
structure TMDB where
  time_schedules : List Schedule
  daily_limit : Option DailyLimit
  todays_usage : Nat
deriving DecidableEq, Repr

/-- `TimeManager.is_access_allowed`: schedule check first, then the daily
usage cap. -/
def tm_is_access_allowed (db : TMDB) (w : Nat) (t : PCTime) : Bool × String :=
  if !check_schedules w t db.time_schedules then
    (false, "Outside of allowed schedule")
  else
    match db.daily_limit with
    | some limit =>
      if limit.is_active && decide (db.todays_usage ≥ limit.time_limit_minutes) then
        (false, "Daily usage limit reached")
      else
        (true, "Access allowed")
    | none => (true, "Access allowed")

/-- The spec's running example: the overnight schedule 22:00–06:00 on
Monday (weekday 0), active. -/
def mondayNight : Schedule := ⟨⟨22, 0⟩, ⟨6, 0⟩, [0], true⟩

/-- An all-week, all-day schedule used by the witnesses. -/
def allDay : Schedule := ⟨⟨0, 0⟩, ⟨23, 59⟩, [0, 1, 2, 3, 4, 5, 6], true⟩

/-! ## `database.py` + `parental_control.py`: the full decision engine -/

/-- A record of the `blocked_sites` table (manual `BlockEntry`). -/
structure BlockEntry where
  domain : List Char
  category : String
deriving DecidableEq, Repr

/-- A record of the `blacklist_domains` table. -/
structure BLDomain where
  domain : List Char
  category : String
deriving DecidableEq, Repr

/-- A record of the `blacklist_categories` table. -/
structure BLCat where
  name : String
  is_active : Bool
  domain_count : Nat
deriving DecidableEq, Repr

/-- `ParentalControlDB.is_site_blocked`: exact-match TinyDB query
`Site.domain == domain` on the `blocked_sites` table. -/
def is_site_blocked (blocked_sites : List BlockEntry) (d : List Char) : Bool :=
  blocked_sites.any (fun e => e.domain == d)

/-- The TinyDB query `Domain.domain == d` on `blacklist_domains`. -/
def searchBLDomain (bl : List BLDomain) (d : List Char) : List BLDomain :=
  bl.filter (fun e => e.domain == d)

/-- The parent-domain walk in `ParentalControlDB.is_domain_in_blacklist`:
`for i in range(1, len(parts))`, first hit wins. -/
def walkParents (bl : List BLDomain) : List (List Char) → List BLDomain
  | [] => []
  | [_] => []
  | _ :: rest =>
    let r := searchBLDomain bl (joinChar '.' rest)
    if r.isEmpty then walkParents bl rest else r

/-- `ParentalControlDB.is_domain_in_blacklist`: exact match, then parent
walk, filtered to active categories. -/
def is_domain_in_blacklist (bl : List BLDomain) (cats : List BLCat)
    (domain0 : List Char) : Bool × List String :=
  let domain := pyStrip (pyLower domain0)
  let activeNames := (cats.filter (·.is_active)).map (·.name)
  if activeNames.isEmpty then (false, [])
  else
    let results := searchBLDomain bl domain
    let results :=
      if results.isEmpty then results ++ walkParents bl (splitOnChar '.' domain)
      else results
    let active_results := results.filter (fun it => activeNames.contains it.category)
    let categories := active_results.map (·.category)
    (!categories.isEmpty, categories)

/-- `BlacklistManager.is_domain_blocked`: lowercases/strips and delegates to
the rule store. -/
def bm_is_domain_blocked (bl : List BLDomain) (cats : List BLCat)
    (d : List Char) : Bool × List String :=
  is_domain_in_blacklist bl cats (pyStrip (pyLower d))

/-- The slice of the rule store consulted by `ParentalControl`. -/
structure PCDB where
  tm : TMDB
  blocked_sites : List BlockEntry
  blacklist_domains : List BLDomain
  blacklist_categories : List BLCat
deriving DecidableEq, Repr

/-- `ParentalControl.is_access_allowed`: time/usage verdict first, then the
manual-block check (exact match, fixed reason), then the blacklist
categories.  Activity logging and usage recording are side effects outside
the pure verdict. -/
def pc_is_access_allowed (db : PCDB) (w : Nat) (t : PCTime)
    (domain : Option (List Char)) : Bool × String :=
  let tres := tm_is_access_allowed db.tm w t
  if !tres.1 then (false, tres.2)
  else
    match domain with
    | none => (true, "Access allowed")
    | some d =>
      if d.isEmpty then (true, "Access allowed")
      else if is_site_blocked db.blocked_sites d then
        (false, "Blocked by manual site blocking")
      else
        let bres := bm_is_domain_blocked db.blacklist_domains db.blacklist_categories d
        if bres.1 then
          (false, "Blocked by categories: " ++ String.intercalate ", " bres.2)
        else (true, "Access allowed")

/-! ## `network_enforcer.py`: the PARENTAL_CONTROL chain state machine

The chain is modelled as the list of rules currently appended to it; each
successful `iptables` invocation transforms that list.  `enable` flushes and
then appends its fixed rule sequence, `disable` flushes. -/

/-- The rule sequence appended by `NetworkEnforcer.enable_time_restriction`,
in order: loopback, established/related, private networks, DNS (UDP+TCP),
catch-all reject. -/
def enableRules : List (List String) :=
  [["-o", "lo", "-j", "ACCEPT"],
   ["-m", "state", "--state", "ESTABLISHED,RELATED", "-j", "ACCEPT"],
   ["-d", "192.168.0.0/16", "-j", "ACCEPT"],
   ["-d", "172.16.0.0/12", "-j", "ACCEPT"],
   ["-d", "10.0.0.0/8", "-j", "ACCEPT"],
   ["-p", "udp", "--dport", "53", "-j", "ACCEPT"],
   ["-p", "tcp", "--dport", "53", "-j", "ACCEPT"],
   ["-j", "REJECT", "--reject-with", "icmp-net-prohibited"]]

/-- `NetworkEnforcer._clear_rules`: `iptables -F PARENTAL_CONTROL` empties
the chain; flushing an already-empty chain is equally successful. -/
def clear_rules (_chain : List (List String)) : List (List String) × Bool :=
  ([], true)

/-- `NetworkEnforcer.enable_time_restriction`: clear, then append the fixed
rule sequence. -/
def enable_time_restriction (chain : List (List String)) :
    List (List String) × Bool :=
  ((clear_rules chain).1 ++ enableRules, true)

/-- `NetworkEnforcer.disable_time_restriction`: clear the chain. -/
def disable_time_restriction (chain : List (List String)) :
    List (List String) × Bool :=
  clear_rules chain

/-- `NetworkEnforcer.get_status`: enabled-ness is recomputed from the live
rule count. -/
def enforcer_get_status (chain : List (List String)) : Bool × Nat :=
  (decide (chain.length > 0), chain.length)

/-! ## `blacklist_manager.py`: category refresh control flow

`update_blacklist` performs download → extract → parse and only then
replaces the category's stored domains.  The outcomes of the three
fallible steps are explicit inputs of the embedding (`none` models a failed
download/extraction, an empty parse result models a file with no valid
domains). -/

/-- The blacklist slice of the rule store. -/
structure BLState where
  blacklist_domains : List BLDomain
  blacklist_categories : List BLCat
deriving DecidableEq, Repr

/-- `ParentalControlDB.add_blacklist_category`: upsert preserving the stored
domain count. -/
def add_blacklist_category (st : BLState) (name : String) (is_active : Bool) :
    BLState :=
  match st.blacklist_categories.filter (fun c => c.name == name) with
  | [] =>
    { st with blacklist_categories :=
        st.blacklist_categories ++ [⟨name, is_active, 0⟩] }
  | c :: _ =>
    { st with blacklist_categories :=
        st.blacklist_categories.map fun cat =>
          if cat.name == name then
            { cat with is_active := is_active, domain_count := c.domain_count }
          else cat }

/-- `ParentalControlDB.add_blacklist_domains`: remove every stored domain of
the category, then bulk-insert the new ones and update the category's
count. -/
def add_blacklist_domains (st : BLState) (category : String)
    (domains : List (List Char)) : BLState × Nat :=
  let kept := st.blacklist_domains.filter (fun d => !(d.category == category))
  let toInsert := (domains.filter (fun d => !(pyStrip d).isEmpty)).map
    (fun d => (⟨pyLower (pyStrip d), category⟩ : BLDomain))
  let added := toInsert.length
  let cats := st.blacklist_categories.map fun c =>
    if c.name == category then { c with domain_count := added } else c
  (⟨kept ++ toInsert, cats⟩, added)

/-- `BlacklistManager.update_blacklist`: each of the three fallible steps
returns `(False, 0)` without touching the store; the wholesale replacement
runs only after all of them succeed. -/
def update_blacklist (download extract : Option Unit) (parsed : List (List Char))
    (category : String) (st : BLState) : BLState × Bool × Nat :=
  match download with
  | none => (st, false, 0)
  | some _ =>
    match extract with
    | none => (st, false, 0)
    | some _ =>
      if parsed.isEmpty then (st, false, 0)
      else
        let st1 := add_blacklist_category st category true
        let (st2, n) := add_blacklist_domains st1 category parsed
        (st2, true, n)

/-! ## `hosts_manager.py`: the hosts-file content transformation

`HostsFileManager.update_blocked_domains` is a pure function from the
current file content (plus the blocked-domain set and the `datetime.now()`
reading rendered by `strftime`) to the new content, guarded by
`validate_hosts_content`; backup and the atomic rename are I/O around this
transformation.  Content is a character list; lines are split on `'\n'`. -/

/-- `HostsFileManager.start_marker`. -/
def startMarker : List Char := strL "# Ubuntu Parental Control - START"

/-- `HostsFileManager.end_marker`. -/
def endMarker : List Char := strL "# Ubuntu Parental Control - END"

/-- `HostsFileManager.system_entries`, in dict insertion order. -/
def system_entries : List (List Char × List (List Char)) :=
  [(strL "127.0.0.1", [strL "localhost", strL "localhost.localdomain"]),
   (strL "::1", [strL "localhost", strL "ip6-localhost", strL "ip6-loopback"]),
   (strL "fe00::0", [strL "ip6-localnet"]),
   (strL "ff00::0", [strL "ip6-mcastprefix"]),
   (strL "ff02::1", [strL "ip6-allnodes"]),
   (strL "ff02::2", [strL "ip6-allrouters"])]

/-- `content.split('\n')`. -/
def splitLines (content : List Char) : List (List Char) := splitOnChar '\n' content

/-- `'\n'.join(lines)`. -/
def joinLines (lines : List (List Char)) : List Char := joinChar '\n' lines

/-- Python `line.startswith('#')`. -/
def startsWithHash (l : List Char) : Bool :=
  match l with
  | c :: _ => c = '#'
  | [] => false

/-- Python `self.start_marker in line`. -/
def isMarkerStart (line : List Char) : Bool := containsSub startMarker line

/-- Python `self.end_marker in line`. -/
def isMarkerEnd (line : List Char) : Bool := containsSub endMarker line

/-- The `(ip, hostnames)` pair parsed from one line by
`_ensure_system_entries` (a non-comment line splitting into ≥ 2 fields). -/
def parseHostsLine (line : List Char) : Option (List Char × List (List Char)) :=
  let l := pyStrip line
  if l.isEmpty || startsWithHash l then none
  else
    match pySplitWS l with
    | ip :: h :: hs => some (ip, h :: hs)
    | _ => none

/-- All `(ip, hostnames)` pairs parsed from a line list by
`_ensure_system_entries`. -/
def parsedEntries (lines : List (List Char)) :
    List (List Char × List (List Char)) :=
  lines.filterMap parseHostsLine

/-- The hosts line appended for a missing system entry:
`f"{ip}\t" + "\t".join(required_hostnames)`. -/
def systemEntryLine (e : List Char × List (List Char)) : List Char :=
  e.1 ++ '\t' :: joinChar '\t' e.2

/-- `HostsFileManager._ensure_system_entries`: append an entry line for
every system ip that no existing entry covers. -/
def ensure_system_entries (lines : List (List Char)) : List (List Char) :=
  let existing := parsedEntries lines
  lines ++ system_entries.filterMap fun e =>
    if existing.any (fun x => x.1 == e.1 && e.2.any (fun h => x.2.contains h)) then
      none
    else some (systemEntryLine e)

/-- The marker-delimited filter loop of `_extract_non_parental_lines`:
keep lines outside the managed section, dropping marker lines. -/
def extractLoop : Bool → List (List Char) → List (List Char)
  | _, [] => []
  | inSec, line :: rest =>
    if isMarkerStart line then extractLoop true rest
    else if isMarkerEnd line then extractLoop false rest
    else if inSec then extractLoop inSec rest
    else line :: extractLoop inSec rest

/-- `HostsFileManager._extract_non_parental_lines`. -/
def extract_non_parental_lines (content : List Char) : List (List Char) :=
  ensure_system_entries (extractLoop false (splitLines content))

/-- One line of `validate_hosts_content`'s scan: a non-comment entry line
`127.0.0.1 … localhost …`. -/
def isLocalhostLine (line : List Char) : Bool :=
  let l := pyStrip line
  if l.isEmpty || startsWithHash l then false
  else
    match pySplitWS l with
    | ip :: h :: hs => ip == strL "127.0.0.1" && (h :: hs).contains (strL "localhost")
    | _ => false

/-- `HostsFileManager.validate_hosts_content`: the content (stripped, split
into lines) must contain a `127.0.0.1 localhost` entry.  The missing-IPv6
case only logs a warning and does not affect the result. -/
def validate_hosts_content (content : List Char) : Bool :=
  (splitOnChar '\n' (pyStrip content)).any isLocalhostLine

/-- The per-domain filter of `HostsFileManager._clean_domains`: non-empty,
at most 253 characters, not a localhost name, and matching the domain
regex. -/
def validCleanDomain (d : List Char) : Bool :=
  !d.isEmpty && decide (d.length ≤ 253) &&
  !(d == strL "localhost" || d == strL "localhost.localdomain") &&
  domainPatternMatch d

/-- Lexicographic comparison of character lists by code point, as Python
compares strings. -/
def lexLe : List Char → List Char → Bool
  | [], _ => true
  | _ :: _, [] => false
  | a :: as_, b :: bs => if a = b then lexLe as_ bs else decide (a < b)

/-- Insertion into a lexicographically sorted list. -/
def insLex (d : List Char) : List (List Char) → List (List Char)
  | [] => [d]
  | e :: rest => if lexLe d e then d :: e :: rest else e :: insLex d rest

/-- Python `sorted(...)` of a set of strings: sorted, duplicate-free. -/
def sortLex (l : List (List Char)) : List (List Char) := l.foldr insLex []

/-- `HostsFileManager._clean_domains` followed by the `sorted(...)`
enumeration in `update_blocked_domains`: strip/lowercase each domain, keep
the valid ones, deduplicate (set semantics), sort. -/
def clean_domains (domains : List (List Char)) : List (List Char) :=
  sortLex ((domains.map (fun d => pyLower (pyStrip d))).filter validCleanDomain).dedup

/-- A generated blocking line `f"127.0.0.1\t{domain}"`. -/
def blockedLine (d : List Char) : List Char := strL "127.0.0.1" ++ '\t' :: d

/-- The interior of the managed section generated by
`update_blocked_domains` (between the markers): the `# Updated:` stamp, the
`# Blocking N domains` count, and one line per sorted cleaned domain. -/
def sectionFor (now : List Char) (cd : List (List Char)) : List (List Char) :=
  (strL "# Updated: " ++ now) ::
  (strL "# Blocking " ++ natDigits cd.length ++ strL " domains") ::
  cd.map blockedLine

/-- The line list assembled by `update_blocked_domains` (step 4 of the
algorithm): the preserved lines with system entries re-injected, followed —
when the input set is non-empty — by a blank line, the start marker, the
generated section, the end marker and a trailing blank line. -/
def updateLines (now : List Char) (domains : List (List Char))
    (content : List Char) : List (List Char) :=
  let preserved := extract_non_parental_lines content
  if domains.isEmpty then preserved
  else
    preserved ++ [[], startMarker] ++ sectionFor now (clean_domains domains) ++
      [endMarker, []]

/-- `HostsFileManager.update_blocked_domains` as a pure content
transformation: extract preserved lines, re-inject system entries, append
the freshly generated managed section (when the input set is non-empty),
validate; `none` models the aborted update (validation failure), in which
case the live file is untouched. -/
def update_blocked_domains (now : List Char) (domains : List (List Char))
    (content : List Char) : Option (List Char) :=
  let new_content := joinLines (updateLines now domains content)
  if validate_hosts_content new_content then some new_content else none

/-- Collect the lines strictly between the sentinel markers (the managed
section's content). -/
def msLoop : Bool → List (List Char) → List (List Char)
  | _, [] => []
  | inSec, line :: rest =>
    if isMarkerStart line then msLoop true rest
    else if isMarkerEnd line then msLoop false rest
    else if inSec then line :: msLoop inSec rest
    else msLoop inSec rest

/-- The managed section of a hosts-file content: every line strictly
between the START and END markers. -/
def managedSection (content : List Char) : List (List Char) :=
  msLoop false (splitLines content)

/-- The scan loop of `get_current_blocked_domains`: inside the managed
section, collect the first hostname of every non-comment `127.0.0.1`
line. -/
def gcLoop : Bool → List (List Char) → List (List Char)
  | _, [] => []
  | inSec, line :: rest =>
    if isMarkerStart line then gcLoop true rest
    else if isMarkerEnd line then gcLoop false rest
    else if inSec then
      (let l := pyStrip line
       if !l.isEmpty && !startsWithHash l then
         match pySplitWS l with
         | ip :: h :: _ =>
           if ip == strL "127.0.0.1" then h :: gcLoop inSec rest
           else gcLoop inSec rest
         | _ => gcLoop inSec rest
       else gcLoop inSec rest)
    else gcLoop inSec rest

/-- `HostsFileManager.get_current_blocked_domains` (the set it builds, in
scan order). -/
def get_current_blocked_domains (content : List Char) : List (List Char) :=
  gcLoop false (splitLines content)

/-- Well-formedness of a `strftime('%Y-%m-%d %H:%M:%S')` reading: digits,
hyphens, spaces and colons only. -/
def wfTimestamp (now : List Char) : Bool :=
  now.all fun c => c.isDigit || c = '-' || c = ' ' || c = ':'

/-- The `system_entries` of `parsedEntries` membership check used by
`_ensure_system_entries`, as a standalone predicate on content lines: every
system ip is covered by some parsed entry. -/
def systemEntriesPresent (lines : List (List Char)) : Bool :=
  system_entries.all fun e =>
    (parsedEntries lines).any fun x => x.1 == e.1 && e.2.any (fun h => x.2.contains h)

/-! ## Theorems -/

/-- Counterexample for C1: with an empty schedule list,
`TimeManager.is_access_allowed` denies with exactly the reason
"Outside of allowed schedule" — the schedule check does not default-allow. -/
theorem C1_counterexample :
    tm_is_access_allowed ⟨[], none, 0⟩ 2 ⟨12, 0⟩ =
      (false, "Outside of allowed schedule") := by
  rfl

/-- Claim C1 (amended): for every evaluation time, daily-limit configuration
and usage counter, if zero schedules are configured then
`TimeManager.is_access_allowed` denies with reason
"Outside of allowed schedule" (default-deny, not default-allow). -/
theorem C1_zero_schedules_denies (limit : Option DailyLimit) (usage w : Nat)
    (t : PCTime) :
    tm_is_access_allowed ⟨[], limit, usage⟩ w t =
      (false, "Outside of allowed schedule") := by
  simp [tm_is_access_allowed, check_schedules]

/-- Helper: a total-order fact about the embedded `datetime.time`
comparisons. -/
theorem timeGt_of_not_le {a b : PCTime} (h : timeLe a b = false) :
    timeGt a b = true := by
  simp only [timeLe, timeGt, decide_eq_false_iff_not, decide_eq_true_eq] at *
  omega

/-- Claim C2: for every active overnight schedule `s` (`start > end`) and
every valid weekday/time, the schedule evaluator reports the time in-window
iff (weekday ∈ days and time ≥ start) or ((weekday − 1) mod 7 ∈ days and
time ≤ end); concretely, for the schedule 22:00–06:00 on Monday the
evaluator accepts 23:30 Monday and 05:00 Tuesday and rejects 07:00 Tuesday
and 21:00 Monday. -/
theorem C2_overnight_window :
    (∀ (s : Schedule) (w : Nat) (t : PCTime), s.is_active = true → w < 7 →
      timeLe s.start_time s.end_time = false →
      check_schedules w t [s] =
        ((s.days.contains w && timeLe s.start_time t) ||
         (s.days.contains ((w + 6) % 7) && timeLe t s.end_time))) ∧
    check_schedules 0 ⟨23, 30⟩ [mondayNight] = true ∧
    check_schedules 1 ⟨5, 0⟩ [mondayNight] = true ∧
    check_schedules 1 ⟨7, 0⟩ [mondayNight] = false ∧
    check_schedules 0 ⟨21, 0⟩ [mondayNight] = false := by
  refine ⟨?_, by decide, by decide, by decide, by decide⟩
  intro s w t hact hw hover
  have hprev : prevWeekday w = (w + 6) % 7 := by
    unfold prevWeekday
    split <;> omega
  simp [check_schedules, hact, is_time_in_schedule, hover,
    is_time_in_overnight_schedule, timeGt_of_not_le hover, hprev]

/-- Witness for C2 at the concrete schedule and a concrete time. -/
theorem C2_witness :
    check_schedules 1 ⟨5, 0⟩ [mondayNight] =
      ((mondayNight.days.contains 1 && timeLe mondayNight.start_time ⟨5, 0⟩) ||
       (mondayNight.days.contains ((1 + 6) % 7) && timeLe ⟨5, 0⟩ mondayNight.end_time)) :=
  C2_overnight_window.1 mondayNight 1 ⟨5, 0⟩ rfl (by decide) (by decide)

/-- Counterexample for C7: cap 60 configured and active, 60 minutes used,
but the current time lies outside the only active schedule, so the denial
reason is "Outside of allowed schedule", not "Daily usage limit reached" —
the exact reason does depend on schedule state. -/
theorem C7_counterexample :
    tm_is_access_allowed ⟨[⟨⟨9, 0⟩, ⟨17, 0⟩, [0], true⟩], some ⟨60, true⟩, 60⟩ 1 ⟨10, 0⟩ =
      (false, "Outside of allowed schedule") ∧
    tm_is_access_allowed ⟨[⟨⟨9, 0⟩, ⟨17, 0⟩, [0], true⟩], some ⟨60, true⟩, 60⟩ 1 ⟨10, 0⟩ ≠
      (false, "Daily usage limit reached") := by
  constructor
  · rfl
  · decide

/-- Claim C7 (amended): whenever the schedule check passes and a daily cap
is configured and active and today's usage has reached the cap,
`TimeManager.is_access_allowed` denies with exactly the reason
"Daily usage limit reached". -/
theorem C7_usage_cap (db : TMDB) (w : Nat) (t : PCTime) (L : DailyLimit)
    (hs : check_schedules w t db.time_schedules = true)
    (hl : db.daily_limit = some L) (ha : L.is_active = true)
    (hu : db.todays_usage ≥ L.time_limit_minutes) :
    tm_is_access_allowed db w t = (false, "Daily usage limit reached") := by
  simp [tm_is_access_allowed, hs, hl, ha, hu]

/-- Witness for C7: cap 60 reached inside an allowed window. -/
theorem C7_witness :
    tm_is_access_allowed ⟨[allDay], some ⟨60, true⟩, 60⟩ 2 ⟨10, 0⟩ =
      (false, "Daily usage limit reached") :=
  C7_usage_cap ⟨[allDay], some ⟨60, true⟩, 60⟩ 2 ⟨10, 0⟩ ⟨60, true⟩
    (by decide) rfl rfl (by decide)

/-- Counterexample for C6: with a manual block entry on `example.com` only,
inside an allowed time window, the decision engine ALLOWS
`sub.example.com` — the manual-block check is an exact match, with no
hierarchical parent walk. -/
theorem C6_counterexample :
    pc_is_access_allowed
      ⟨⟨[allDay], none, 0⟩, [⟨strL "example.com", "MANUAL"⟩], [], []⟩
      2 ⟨10, 0⟩ (some (strL "sub.example.com")) = (true, "Access allowed") := by
  decide

/-- Claim C6 (amended): the manual-block check matches exactly: inside an
allowed time window, a domain with a manual `BlockEntry` on the domain
itself is denied with the fixed reason "Blocked by manual site blocking"
(the stored category is not carried into the reason); entries on proper
parent domains do not trigger the manual check. -/
theorem C6_manual_block_exact (db : PCDB) (w : Nat) (t : PCTime) (d : List Char)
    (ht : (tm_is_access_allowed db.tm w t).1 = true)
    (hne : d.isEmpty = false)
    (hb : is_site_blocked db.blocked_sites d = true) :
    pc_is_access_allowed db w t (some d) =
      (false, "Blocked by manual site blocking") := by
  simp [pc_is_access_allowed, ht, hne, hb]

/-- Witness for C6: the manually blocked domain itself is denied. -/
theorem C6_witness :
    pc_is_access_allowed
      ⟨⟨[allDay], none, 0⟩, [⟨strL "example.com", "MANUAL"⟩], [], []⟩
      2 ⟨10, 0⟩ (some (strL "example.com")) =
      (false, "Blocked by manual site blocking") :=
  C6_manual_block_exact
    ⟨⟨[allDay], none, 0⟩, [⟨strL "example.com", "MANUAL"⟩], [], []⟩
    2 ⟨10, 0⟩ (strL "example.com") (by decide) (by decide) (by decide)

/-- Claim C8: after `Enable` then `Disable` the chain's rule count is zero
(and status reports disabled), and `Disable` twice in a row succeeds — the
second call flushes an already-empty chain and returns success. -/
theorem C8_enable_disable (chain : List (List String)) :
    (disable_time_restriction (enable_time_restriction chain).1).1.length = 0 ∧
    enforcer_get_status (disable_time_restriction (enable_time_restriction chain).1).1 =
      (false, 0) ∧
    (disable_time_restriction chain).2 = true ∧
    (disable_time_restriction (disable_time_restriction chain).1).2 = true ∧
    (disable_time_restriction (disable_time_restriction chain).1).1 = [] := by
  simp [disable_time_restriction, enable_time_restriction, clear_rules,
    enforcer_get_status]

/-- Claim C9: if the download, extraction or parsing step of a blacklist
refresh fails, `update_blacklist` returns `(False, 0)` and the rule store —
in particular the category's previously stored domain set — is left
completely untouched. -/
theorem C9_failed_refresh_untouched (download extract : Option Unit)
    (parsed : List (List Char)) (category : String) (st : BLState)
    (h : download = none ∨ extract = none ∨ parsed = []) :
    update_blacklist download extract parsed category st = (st, false, 0) := by
  rcases h with h | h | h
  · subst h; rfl
  · subst h; cases download <;> rfl
  · subst h; cases download <;> cases extract <;> rfl

/-- Witness for C9: a failed download leaves a concrete store unchanged. -/
theorem C9_witness :
    update_blacklist none (some ()) [strL "a.com"] "ads"
      ⟨[⟨strL "old.com", "ads"⟩], [⟨"ads", true, 1⟩]⟩ =
      (⟨[⟨strL "old.com", "ads"⟩], [⟨"ads", true, 1⟩]⟩, false, 0) :=
  C9_failed_refresh_untouched none (some ()) [strL "a.com"] "ads"
    ⟨[⟨strL "old.com", "ads"⟩], [⟨"ads", true, 1⟩]⟩ (Or.inl rfl)

/-! ### Helper lemmas: splitting and joining lines -/

/-- Splitting never produces the empty list of parts. -/
theorem splitOnChar_ne_nil (sep : Char) (l : List Char) :
    splitOnChar sep l ≠ [] := by
  induction l with
  | nil => simp [splitOnChar]
  | cons c rest ih =>
    simp only [splitOnChar]
    split
    · simp
    · match h : splitOnChar sep rest with
      | [] => simp
      | h0 :: t => simp

/-- No part produced by splitting contains the separator. -/
theorem sep_not_mem_splitOnChar (sep : Char) (l : List Char) :
    ∀ p ∈ splitOnChar sep l, sep ∉ p := by
  induction l with
  | nil =>
    intro p hp
    simp [splitOnChar] at hp
    subst hp
    simp
  | cons c rest ih =>
    intro p hp
    simp only [splitOnChar] at hp
    by_cases hc : c = sep
    · rw [if_pos hc] at hp
      rcases List.mem_cons.mp hp with h | h
      · subst h; simp
      · exact ih p h
    · rw [if_neg hc] at hp
      match hr : splitOnChar sep rest with
      | [] => exact absurd hr (splitOnChar_ne_nil sep rest)
      | h0 :: t =>
        rw [hr] at hp
        rcases List.mem_cons.mp hp with h | h
        · subst h
          intro hmem
          rcases List.mem_cons.mp hmem with h | h
          · exact hc h.symm
          · exact ih h0 (hr ▸ List.mem_cons_self h0 t) h
        · exact ih p (hr ▸ List.mem_cons_of_mem h0 h)

/-- Splitting a list that avoids the separator yields a single part. -/
theorem splitOnChar_of_not_mem {sep : Char} {l : List Char} (h : sep ∉ l) :
    splitOnChar sep l = [l] := by
  induction l with
  | nil => rfl
  | cons c rest ih =>
    have hc : ¬c = sep := fun hc => h (hc ▸ List.mem_cons_self c rest)
    have hrest : sep ∉ rest := fun hm => h (List.mem_cons_of_mem c hm)
    simp only [splitOnChar, if_neg hc, ih hrest]

/-- Splitting distributes over one separator occurrence. -/
theorem splitOnChar_append_cons {sep : Char} {l : List Char} (t : List Char)
    (h : sep ∉ l) :
    splitOnChar sep (l ++ sep :: t) = l :: splitOnChar sep t := by
  induction l with
  | nil => simp [splitOnChar]
  | cons c rest ih =>
    have hc : ¬c = sep := fun hc => h (hc ▸ List.mem_cons_self c rest)
    have hrest : sep ∉ rest := fun hm => h (List.mem_cons_of_mem c hm)
    simp only [List.cons_append, splitOnChar, if_neg hc, List.append_eq]
    rw [ih hrest]

/-- Splitting is the left inverse of joining for separator-free parts. -/
theorem splitOnChar_joinChar {sep : Char} :
    ∀ (ls : List (List Char)), ls ≠ [] → (∀ p ∈ ls, sep ∉ p) →
      splitOnChar sep (joinChar sep ls) = ls
  | [], h, _ => absurd rfl h
  | [l], _, hp => by
    simp only [joinChar]
    exact splitOnChar_of_not_mem (hp l (List.mem_singleton_self l))
  | l :: l2 :: ls, _, hp => by
    have h1 : sep ∉ l := hp l (List.mem_cons_self l _)
    have h2 : ∀ p ∈ l2 :: ls, sep ∉ p := fun p hm => hp p (List.mem_cons_of_mem l hm)
    simp only [joinChar, splitOnChar_append_cons _ h1]
    rw [splitOnChar_joinChar (l2 :: ls) (by simp) h2]

/-- Every character of a list is the separator or lies in some part. -/
theorem mem_splitOnChar_of_mem {sep ch : Char} {l : List Char} (h : ch ∈ l) :
    ch = sep ∨ ∃ p ∈ splitOnChar sep l, ch ∈ p := by
  induction l with
  | nil => cases h
  | cons c rest ih =>
    by_cases hc : c = sep
    · rcases List.mem_cons.mp h with h | h
      · exact Or.inl (h.trans hc)
      · rcases ih h with h | ⟨p, hp, hchp⟩
        · exact Or.inl h
        · refine Or.inr ⟨p, ?_, hchp⟩
          simp only [splitOnChar, if_pos hc]
          exact List.mem_cons_of_mem [] hp
    · match hr : splitOnChar sep rest with
      | [] => exact absurd hr (splitOnChar_ne_nil sep rest)
      | h0 :: t =>
        rcases List.mem_cons.mp h with h | h
        · refine Or.inr ⟨c :: h0, ?_, by simp [h]⟩
          simp [splitOnChar, if_neg hc, hr]
        · rcases ih h with h | ⟨p, hp, hchp⟩
          · exact Or.inl h
          · rw [hr] at hp
            rcases List.mem_cons.mp hp with hph | hpt
            · refine Or.inr ⟨c :: h0, ?_, ?_⟩
              · simp [splitOnChar, if_neg hc, hr]
              · exact hph ▸ List.mem_cons_of_mem c hchp
            · refine Or.inr ⟨p, ?_, hchp⟩
              simp [splitOnChar, if_neg hc, hr, List.mem_cons_of_mem, hpt]

/-! ### Helper lemmas: stripping and whitespace splitting -/

/-- Dropping from the front is the identity when the head survives. -/
theorem dropWhile_eq_self_of_head (p : Char → Bool) (l : List Char)
    (h : ∀ c, l.head? = some c → p c = false) : l.dropWhile p = l := by
  cases l with
  | nil => rfl
  | cons c rest => simp [List.dropWhile_cons, h c rfl]

/-- Dropping from the front commutes with a surviving last element. -/
theorem dropWhile_append_last (p : Char → Bool) (m : List Char) (x : Char)
    (hx : p x = false) : (m ++ [x]).dropWhile p = m.dropWhile p ++ [x] := by
  induction m with
  | nil => simp [List.dropWhile_cons, hx]
  | cons a m ih =>
    by_cases ha : p a
    · simp [List.dropWhile_cons, ha, ih]
    · simp [List.dropWhile_cons, ha]

/-- Stripping is the identity when both ends survive. -/
theorem pyStrip_eq_self (l : List Char)
    (h1 : ∀ c, l.head? = some c → pyWhitespace c = false)
    (h2 : ∀ c, l.getLast? = some c → pyWhitespace c = false) :
    pyStrip l = l := by
  unfold pyStrip
  rw [dropWhile_eq_self_of_head _ _ h1]
  rw [dropWhile_eq_self_of_head _ _ (fun c hc => h2 c (by rwa [← List.head?_reverse]))]
  exact List.reverse_reverse l

/-- Whitespace splitting of a non-empty all-black list is a single field. -/
theorem pySplitWS_all_nonws (l : List Char) (hne : l ≠ [])
    (h : ∀ c ∈ l, pyWhitespace c = false) : pySplitWS l = [l] := by
  induction l with
  | nil => exact absurd rfl hne
  | cons c rest ih =>
    have hc : pyWhitespace c = false := h c (List.mem_cons_self c rest)
    cases rest with
    | nil => simp [pySplitWS, hc]
    | cons c2 rest2 =>
      have h2 : pyWhitespace c2 = false :=
        h c2 (List.mem_cons_of_mem c (List.mem_cons_self c2 rest2))
      have ihr := ih (by simp) (fun x hx => h x (List.mem_cons_of_mem c hx))
      simp only [pySplitWS, hc, h2, Bool.false_eq_true, if_false] at *
      rw [ihr]


/-- Unfolding step: a leading whitespace character is skipped. -/
theorem pySplitWS_cons_ws (s : Char) (b : List Char) (hs : pyWhitespace s = true) :
    pySplitWS (s :: b) = pySplitWS b := by
  cases b <;> simp [pySplitWS, hs]

/-- Unfolding step: a black character followed by whitespace closes a
field. -/
theorem pySplitWS_cons_black_ws (c s : Char) (b : List Char)
    (hc : pyWhitespace c = false) (hs : pyWhitespace s = true) :
    pySplitWS (c :: s :: b) = [c] :: pySplitWS (s :: b) := by
  conv_lhs => rw [pySplitWS]
  simp only [hc, Bool.false_eq_true, if_false, hs, if_true]

/-- Unfolding step: two adjacent black characters extend the first field. -/
theorem pySplitWS_cons_cons (c c2 : Char) (rest : List Char)
    (hc : pyWhitespace c = false) (h2 : pyWhitespace c2 = false) :
    pySplitWS (c :: c2 :: rest) =
      match pySplitWS (c2 :: rest) with
      | [] => [[c]]
      | h :: t => (c :: h) :: t := by
  conv_lhs => rw [pySplitWS]
  simp only [hc, Bool.false_eq_true, if_false, h2]

/-- Whitespace splitting of two black fields around one whitespace
character. -/
theorem pySplitWS_two_fields (a b : List Char) (s : Char)
    (hs : pyWhitespace s = true) (hane : a ≠ []) (hbne : b ≠ [])
    (ha : ∀ c ∈ a, pyWhitespace c = false)
    (hb : ∀ c ∈ b, pyWhitespace c = false) :
    pySplitWS (a ++ s :: b) = [a, b] := by
  induction a with
  | nil => exact absurd rfl hane
  | cons c rest ih =>
    have hc : pyWhitespace c = false := ha c (List.mem_cons_self c rest)
    cases rest with
    | nil =>
      have hsb : pySplitWS (s :: b) = [b] := by
        rw [pySplitWS_cons_ws s b hs]
        exact pySplitWS_all_nonws b hbne hb
      simp only [List.cons_append, List.nil_append]
      rw [pySplitWS_cons_black_ws c s b hc hs, hsb]
    | cons c2 rest2 =>
      have h2 : pyWhitespace c2 = false :=
        ha c2 (List.mem_cons_of_mem c (List.mem_cons_self c2 rest2))
      have ihr := ih (by simp) (fun x hx => ha x (List.mem_cons_of_mem c hx))
      simp only [List.cons_append] at *
      rw [pySplitWS_cons_cons c c2 (rest2 ++ s :: b) hc h2, ihr]

/-- Stripping a line that starts with `#` leaves the leading `#`. -/
theorem pyStrip_hash (l : List Char) :
    pyStrip ('#' :: l) = '#' :: (l.reverse.dropWhile pyWhitespace).reverse := by
  unfold pyStrip
  have h1 : List.dropWhile pyWhitespace ('#' :: l) = '#' :: l := by
    rw [List.dropWhile_cons, if_neg (by decide)]
  rw [h1, List.reverse_cons, dropWhile_append_last _ _ _ (by decide)]
  simp

/-! ### Helper lemmas: marker detection -/

/-- A substring's characters belong to the string. -/
theorem mem_of_containsSub {p l : List Char} (h : containsSub p l = true) :
    ∀ c ∈ p, c ∈ l := by
  intro c hc
  have hinf : p <:+: l := of_decide_eq_true h
  exact hinf.sublist.mem hc

/-- A line without `#` contains neither sentinel marker. -/
theorem noMarker_of_no_hash {line : List Char} (h : '#' ∉ line) :
    isMarkerStart line = false ∧ isMarkerEnd line = false := by
  constructor
  · by_contra hm
    rw [Bool.not_eq_false] at hm
    exact h (mem_of_containsSub hm '#' (by decide))
  · by_contra hm
    rw [Bool.not_eq_false] at hm
    exact h (mem_of_containsSub hm '#' (by decide))

/-- A line without `P` contains neither sentinel marker (both spell
"Parental"). -/
theorem noMarker_of_no_P {line : List Char} (h : 'P' ∉ line) :
    isMarkerStart line = false ∧ isMarkerEnd line = false := by
  constructor
  · by_contra hm
    rw [Bool.not_eq_false] at hm
    exact h (mem_of_containsSub hm 'P' (by decide))
  · by_contra hm
    rw [Bool.not_eq_false] at hm
    exact h (mem_of_containsSub hm 'P' (by decide))

/-! ### Helper lemmas: the marker-delimited loops -/

/-- Lines kept by the extraction loop come from the input. -/
theorem extractLoop_mem : ∀ (b : Bool) (lines : List (List Char)) (l : List Char),
    l ∈ extractLoop b lines → l ∈ lines := by
  intro b lines
  induction lines generalizing b with
  | nil => intro l h; cases h
  | cons line rest ih =>
    intro l h
    simp only [extractLoop] at h
    split at h
    · exact List.mem_cons_of_mem _ (ih true l h)
    · split at h
      · exact List.mem_cons_of_mem _ (ih false l h)
      · split at h
        · exact List.mem_cons_of_mem _ (ih _ l h)
        · rcases List.mem_cons.mp h with h | h
          · exact h ▸ List.mem_cons_self _ _
          · exact List.mem_cons_of_mem _ (ih _ l h)

/-- Lines kept by the extraction loop contain no marker. -/
theorem extractLoop_no_marker :
    ∀ (b : Bool) (lines : List (List Char)) (l : List Char),
      l ∈ extractLoop b lines →
      isMarkerStart l = false ∧ isMarkerEnd l = false := by
  intro b lines
  induction lines generalizing b with
  | nil => intro l h; cases h
  | cons line rest ih =>
    intro l h
    simp only [extractLoop] at h
    split at h
    · exact ih true l h
    · split at h
      · exact ih false l h
      · split at h
        · exact ih _ l h
        · rcases List.mem_cons.mp h with h | h
          · subst h
            rename_i hA hB hC
            simp only [Bool.not_eq_true] at hA hB hC
            exact ⟨by assumption, by assumption⟩
          · exact ih _ l h

/-- The section collector skips marker-free lines while outside. -/
theorem msLoop_false_skip (pre rest : List (List Char))
    (h : ∀ l ∈ pre, isMarkerStart l = false ∧ isMarkerEnd l = false) :
    msLoop false (pre ++ rest) = msLoop false rest := by
  induction pre with
  | nil => rfl
  | cons line p ih =>
    have hl := h line (List.mem_cons_self line p)
    simp only [List.cons_append, msLoop, hl.1, hl.2, Bool.false_eq_true, if_false]
    exact ih (fun l hm => h l (List.mem_cons_of_mem line hm))

/-- The section collector yields nothing on marker-free content. -/
theorem msLoop_false_all_skip (lines : List (List Char))
    (h : ∀ l ∈ lines, isMarkerStart l = false ∧ isMarkerEnd l = false) :
    msLoop false lines = [] := by
  have := msLoop_false_skip lines [] h
  rwa [List.append_nil] at this

/-- The section collector keeps marker-free lines while inside. -/
theorem msLoop_true_collect (mid rest : List (List Char))
    (h : ∀ l ∈ mid, isMarkerStart l = false ∧ isMarkerEnd l = false) :
    msLoop true (mid ++ rest) = mid ++ msLoop true rest := by
  induction mid with
  | nil => rfl
  | cons line p ih =>
    have hl := h line (List.mem_cons_self line p)
    simp only [List.cons_append, msLoop, hl.1, hl.2, Bool.false_eq_true,
      if_false, if_true, List.append_eq]
    rw [ih (fun l hm => h l (List.mem_cons_of_mem line hm))]

/-- The domain collector skips marker-free lines while outside. -/
theorem gcLoop_false_skip (pre rest : List (List Char))
    (h : ∀ l ∈ pre, isMarkerStart l = false ∧ isMarkerEnd l = false) :
    gcLoop false (pre ++ rest) = gcLoop false rest := by
  induction pre with
  | nil => rfl
  | cons line p ih =>
    have hl := h line (List.mem_cons_self line p)
    simp only [List.cons_append, gcLoop, hl.1, hl.2, Bool.false_eq_true, if_false]
    exact ih (fun l hm => h l (List.mem_cons_of_mem line hm))

/-- The domain collector yields nothing on marker-free content. -/
theorem gcLoop_false_all_skip (lines : List (List Char))
    (h : ∀ l ∈ lines, isMarkerStart l = false ∧ isMarkerEnd l = false) :
    gcLoop false lines = [] := by
  have := gcLoop_false_skip lines [] h
  rwa [List.append_nil] at this

/-! ### Helper lemmas: character classes of generated lines -/

/-- Valid labels consist of label characters. -/
theorem label_chars {p : List Char} (h : isValidLabel p = true) :
    ∀ c ∈ p, isLabelChar c = true := by
  match p with
  | [] => simp [isValidLabel] at h
  | c0 :: rest =>
    intro c hc
    simp only [isValidLabel] at h
    match hrev : rest.reverse with
    | [] =>
      have hnil : rest = [] := by rwa [List.reverse_eq_nil_iff] at hrev
      subst hnil
      rw [hrev] at h
      have hcc : c = c0 := List.mem_singleton.mp hc
      subst hcc
      have hc0 : isAlnumA c = true := h
      simp [isLabelChar, hc0]
    | last :: mid =>
      rw [hrev] at h
      simp only [Bool.and_eq_true] at h
      obtain ⟨⟨⟨h0, hlast⟩, hmid⟩, _⟩ := h
      have hrest : rest = mid.reverse ++ [last] := by
        have := congrArg List.reverse hrev
        simpa using this
      rcases List.mem_cons.mp hc with h | h
      · subst h
        simp [isLabelChar, h0]
      · rw [hrest] at h
        rcases List.mem_append.mp h with h | h
        · exact List.all_eq_true.mp hmid c (List.mem_reverse.mp h)
        · have : c = last := List.mem_singleton.mp h
          subst this
          simp [isLabelChar, hlast]

/-- Characters of a matching domain are label characters or dots. -/
theorem domain_chars {d : List Char} (h : domainPatternMatch d = true) :
    ∀ c ∈ d, isLabelChar c = true ∨ c = '.' := by
  intro c hc
  rcases @mem_splitOnChar_of_mem '.' c d hc with h0 | ⟨p, hp, hcp⟩
  · exact Or.inr h0
  · exact Or.inl (label_chars (List.all_eq_true.mp h p hp) c hcp)

/-- Label characters are black, and are not `#`, newline or `P`. -/
theorem labelChar_props {c : Char} (h : isLabelChar c = true) :
    pyWhitespace c = false ∧ c ≠ '#' ∧ c ≠ '\n' := by
  refine ⟨?_, ?_, ?_⟩
  · by_contra hw
    rw [Bool.not_eq_false] at hw
    simp only [pyWhitespace, Bool.or_eq_true, decide_eq_true_eq] at hw
    rcases hw with ((((h1 | h1) | h1) | h1) | h1) | h1 <;>
      (subst h1; exact absurd h (by decide))
  · intro he; subst he; exact absurd h (by decide)
  · intro he; subst he; exact absurd h (by decide)

/-- Characters of a matching domain are black and are not `#` or newline. -/
theorem domainChar_props {d : List Char} (h : domainPatternMatch d = true) :
    ∀ c ∈ d, pyWhitespace c = false ∧ c ≠ '#' ∧ c ≠ '\n' := by
  intro c hc
  rcases domain_chars h c hc with hl | hdot
  · exact labelChar_props hl
  · subst hdot
    exact ⟨by decide, by decide, by decide⟩

/-- A matching domain is non-empty. -/
theorem domain_nonempty {d : List Char} (h : domainPatternMatch d = true) :
    d ≠ [] := by
  intro he
  subst he
  exact absurd h (by decide)

/-- Decimal digits only in the fuel-driven expansion. -/
theorem natDigitsAux_all_digit (fuel : Nat) :
    ∀ n, ∀ c ∈ natDigitsAux fuel n, c.isDigit = true := by
  induction fuel with
  | zero => intro n c hc; cases hc
  | succ f ih =>
    intro n c hc
    simp only [natDigitsAux] at hc
    split at hc
    · rename_i h
      have hceq : c = Char.ofNat (48 + n) := List.mem_singleton.mp hc
      subst hceq
      interval_cases n <;> decide
    · rcases List.mem_append.mp hc with h1 | h1
      · exact ih (n / 10) c h1
      · have hceq : c = Char.ofNat (48 + n % 10) := List.mem_singleton.mp h1
        subst hceq
        have h10 : n % 10 < 10 := Nat.mod_lt _ (by omega)
        generalize n % 10 = m at h10 ⊢
        interval_cases m <;> decide

/-- Decimal digits only in `natDigits`. -/
theorem natDigits_all_digit (n : Nat) : ∀ c ∈ natDigits n, c.isDigit = true :=
  natDigitsAux_all_digit (n + 1) n

/-- Decimal digits are not `#`, newline or `P`, and are black. -/
theorem digit_props {c : Char} (h : c.isDigit = true) :
    c ≠ '\n' ∧ c ≠ 'P' := by
  constructor <;> intro he <;> subst he <;> exact absurd h (by decide)

/-- Characters of a well-formed timestamp are not newline or `P`. -/
theorem wfTimestamp_chars {now : List Char} (h : wfTimestamp now = true) :
    ∀ c ∈ now, c ≠ '\n' ∧ c ≠ 'P' := by
  intro c hc
  have hcl := List.all_eq_true.mp h c hc
  simp only [Bool.or_eq_true, decide_eq_true_eq] at hcl
  constructor <;> intro he <;> subst he <;> exact absurd hcl (by decide)

/-! ### Helper lemmas: the cleaned, sorted domain list -/

/-- Membership in lexicographic insertion. -/
theorem mem_insLex {x d : List Char} {l : List (List Char)} :
    x ∈ insLex d l ↔ x = d ∨ x ∈ l := by
  induction l with
  | nil => simp [insLex]
  | cons e rest ih =>
    simp only [insLex]
    split
    · simp [List.mem_cons]
    · simp only [List.mem_cons, ih]
      tauto

/-- Membership in the sorted list. -/
theorem mem_sortLex {x : List Char} {l : List (List Char)} (h : x ∈ sortLex l) :
    x ∈ l := by
  induction l with
  | nil => cases h
  | cons e rest ih =>
    simp only [sortLex, List.foldr_cons] at h
    rcases mem_insLex.mp h with h | h
    · exact h ▸ List.mem_cons_self e rest
    · exact List.mem_cons_of_mem e (ih h)

/-- Every member of the cleaned domain list passes the per-domain filter. -/
theorem clean_domains_valid {S : List (List Char)} {d : List Char}
    (h : d ∈ clean_domains S) : validCleanDomain d = true := by
  have h1 := mem_sortLex h
  have h2 := List.mem_dedup.mp h1
  exact List.of_mem_filter h2

/-- A cleaned domain matches the domain regex. -/
theorem clean_domains_pattern {S : List (List Char)} {d : List Char}
    (h : d ∈ clean_domains S) : domainPatternMatch d = true := by
  have := clean_domains_valid h
  simp only [validCleanDomain, Bool.and_eq_true] at this
  exact this.2

/-! ### Helper lemmas: system entries -/

/-- The generated system entry lines contain no `#` and no newline. -/
theorem system_entry_line_chars :
    ∀ e ∈ system_entries, '#' ∉ systemEntryLine e ∧ '\n' ∉ systemEntryLine e := by
  decide

/-- Each generated system entry line parses back to its `(ip, hostnames)`
pair. -/
theorem system_entry_parse :
    ∀ e ∈ system_entries, parseHostsLine (systemEntryLine e) = some (e.1, e.2) := by
  decide

/-- Each system entry matches itself in the coverage check. -/
theorem system_entry_self_match :
    ∀ e ∈ system_entries,
      (e.1 == e.1 && e.2.any (fun h => e.2.contains h)) = true := by
  decide

/-! ### Helper lemmas: the preserved lines and the assembled line list -/

/-- Preserved lines contain no newline character. -/
theorem preserved_no_newline (content : List Char) :
    ∀ l ∈ extract_non_parental_lines content, '\n' ∉ l := by
  intro l hl
  unfold extract_non_parental_lines ensure_system_entries at hl
  rcases List.mem_append.mp hl with h | h
  · exact sep_not_mem_splitOnChar '\n' content l
      (extractLoop_mem false (splitLines content) l h)
  · rcases List.mem_filterMap.mp h with ⟨e, he, hfe⟩
    split at hfe
    · cases hfe
    · rw [Option.some_inj] at hfe
      subst hfe
      exact (system_entry_line_chars e he).2

/-- Preserved lines contain no sentinel marker. -/
theorem preserved_no_marker (content : List Char) :
    ∀ l ∈ extract_non_parental_lines content,
      isMarkerStart l = false ∧ isMarkerEnd l = false := by
  intro l hl
  unfold extract_non_parental_lines ensure_system_entries at hl
  rcases List.mem_append.mp hl with h | h
  · exact extractLoop_no_marker false (splitLines content) l h
  · rcases List.mem_filterMap.mp h with ⟨e, he, hfe⟩
    split at hfe
    · cases hfe
    · rw [Option.some_inj] at hfe
      subst hfe
      exact noMarker_of_no_hash (system_entry_line_chars e he).1

/-- The preserved line list is never empty (the system entries are
re-injected into an empty extraction). -/
theorem preserved_ne_nil (content : List Char) :
    extract_non_parental_lines content ≠ [] := by
  unfold extract_non_parental_lines
  cases hx : extractLoop false (splitLines content) with
  | nil => decide
  | cons a rest =>
    unfold ensure_system_entries
    simp

/-- Lines of the generated section contain no newline and no marker. -/
theorem section_lines_ok (now : List Char) (cd : List (List Char))
    (hnow : wfTimestamp now = true)
    (hcd : ∀ d ∈ cd, domainPatternMatch d = true) :
    ∀ l ∈ sectionFor now cd,
      '\n' ∉ l ∧ isMarkerStart l = false ∧ isMarkerEnd l = false := by
  intro l hl
  rcases List.mem_cons.mp hl with h | hl2
  · subst h
    have hnl : '\n' ∉ strL "# Updated: " ++ now := by
      intro hm
      rcases List.mem_append.mp hm with h | h
      · exact absurd h (by decide)
      · exact ((wfTimestamp_chars hnow '\n' h).1 rfl).elim
    have hP : 'P' ∉ strL "# Updated: " ++ now := by
      intro hm
      rcases List.mem_append.mp hm with h | h
      · exact absurd h (by decide)
      · exact ((wfTimestamp_chars hnow 'P' h).2 rfl).elim
    exact ⟨hnl, noMarker_of_no_P hP⟩
  rcases List.mem_cons.mp hl2 with h | h3
  · subst h
    have hnl : '\n' ∉ strL "# Blocking " ++ natDigits cd.length ++ strL " domains" := by
      intro hm
      rcases List.mem_append.mp hm with h | h
      · rcases List.mem_append.mp h with h | h
        · exact absurd h (by decide)
        · exact ((digit_props (natDigits_all_digit cd.length '\n' h)).1 rfl).elim
      · exact absurd h (by decide)
    have hP : 'P' ∉ strL "# Blocking " ++ natDigits cd.length ++ strL " domains" := by
      intro hm
      rcases List.mem_append.mp hm with h | h
      · rcases List.mem_append.mp h with h | h
        · exact absurd h (by decide)
        · exact ((digit_props (natDigits_all_digit cd.length 'P' h)).2 rfl).elim
      · exact absurd h (by decide)
    exact ⟨hnl, noMarker_of_no_P hP⟩
  · rcases List.mem_map.mp h3 with ⟨d, hd, hbl⟩
    subst hbl
    have hpat := hcd d hd
    have hnl : '\n' ∉ blockedLine d := by
      intro hm
      unfold blockedLine at hm
      rcases List.mem_append.mp hm with h | h
      · exact absurd h (by decide)
      · rcases List.mem_cons.mp h with h | h
        · exact absurd h (by decide)
        · exact ((domainChar_props hpat '\n' h).2.2 rfl).elim
    have hH : '#' ∉ blockedLine d := by
      intro hm
      unfold blockedLine at hm
      rcases List.mem_append.mp hm with h | h
      · exact absurd h (by decide)
      · rcases List.mem_cons.mp h with h | h
        · exact absurd h (by decide)
        · exact ((domainChar_props hpat '#' h).2.1 rfl).elim
    exact ⟨hnl, noMarker_of_no_hash hH⟩

/-- Every line assembled by `updateLines` is free of newlines. -/
theorem updateLines_no_newline (now : List Char) (S : List (List Char))
    (c : List Char) (hnow : wfTimestamp now = true) :
    ∀ l ∈ updateLines now S c, '\n' ∉ l := by
  intro l hl
  unfold updateLines at hl
  split at hl
  · exact preserved_no_newline c l hl
  · simp only [List.append_assoc, List.mem_append] at hl
    rcases hl with h | h | h | h
    · exact preserved_no_newline c l h
    · rcases List.mem_cons.mp h with h | h
      · subst h; simp
      · have : l = startMarker := List.mem_singleton.mp h
        subst this; decide
    · exact (section_lines_ok now (clean_domains S) hnow
        (fun d hd => clean_domains_pattern hd) l h).1
    · rcases List.mem_cons.mp h with h | h
      · subst h; decide
      · have : l = [] := List.mem_singleton.mp h
        subst this; simp

/-- The assembled line list is never empty. -/
theorem updateLines_ne_nil (now : List Char) (S : List (List Char))
    (c : List Char) : updateLines now S c ≠ [] := by
  unfold updateLines
  split
  · exact preserved_ne_nil c
  · intro h
    rcases List.append_eq_nil.mp h with ⟨h1, _⟩
    rcases List.append_eq_nil.mp h1 with ⟨_, h3⟩
    cases h3

/-- Splitting the joined assembled content recovers the line list. -/
theorem splitLines_updateLines (now : List Char) (S : List (List Char))
    (c : List Char) (hnow : wfTimestamp now = true) :
    splitLines (joinLines (updateLines now S c)) = updateLines now S c := by
  unfold splitLines joinLines
  exact splitOnChar_joinChar (updateLines now S c) (updateLines_ne_nil now S c)
    (updateLines_no_newline now S c hnow)

/-- A successful update returns the joined assembled line list, and that
content passes validation. -/
theorem update_some_out {now : List Char} {S : List (List Char)}
    {c out : List Char} (h : update_blocked_domains now S c = some out) :
    out = joinLines (updateLines now S c) ∧
      validate_hosts_content (joinLines (updateLines now S c)) = true := by
  simp only [update_blocked_domains] at h
  split at h
  · exact ⟨(Option.some_inj.mp h).symm, by assumption⟩
  · cases h

/-- The managed section of marker-free joined lines is empty. -/
theorem managedSection_no_section (ls : List (List Char)) (hne : ls ≠ [])
    (hnl : ∀ l ∈ ls, '\n' ∉ l)
    (hnm : ∀ l ∈ ls, isMarkerStart l = false ∧ isMarkerEnd l = false) :
    managedSection (joinLines ls) = [] := by
  unfold managedSection splitLines joinLines
  rw [splitOnChar_joinChar ls hne hnl]
  exact msLoop_false_all_skip ls hnm

/-- The managed section of an assembled content with one generated section
is exactly that section's interior. -/
theorem managedSection_with_section (pre mid : List (List Char))
    (hnlp : ∀ l ∈ pre, '\n' ∉ l)
    (hnmp : ∀ l ∈ pre, isMarkerStart l = false ∧ isMarkerEnd l = false)
    (hnlm : ∀ l ∈ mid, '\n' ∉ l)
    (hnmm : ∀ l ∈ mid, isMarkerStart l = false ∧ isMarkerEnd l = false) :
    managedSection (joinLines (pre ++ [[], startMarker] ++ mid ++ [endMarker, []])) =
      mid := by
  unfold managedSection splitLines joinLines
  rw [splitOnChar_joinChar]
  · have hskip : ∀ l ∈ pre ++ [([] : List Char)],
        isMarkerStart l = false ∧ isMarkerEnd l = false := by
      intro l hl
      rcases List.mem_append.mp hl with h | h
      · exact hnmp l h
      · have : l = [] := List.mem_singleton.mp h
        subst this; decide
    have harr : pre ++ [[], startMarker] ++ mid ++ [endMarker, []] =
        (pre ++ [[]]) ++ (startMarker :: (mid ++ [endMarker, []])) := by
      simp
    rw [harr, msLoop_false_skip (pre ++ [[]]) _ hskip]
    have hstart : isMarkerStart startMarker = true := by decide
    simp only [msLoop, hstart, if_true]
    rw [msLoop_true_collect mid [endMarker, []] hnmm]
    have : msLoop true [endMarker, []] = [] := by decide
    rw [this, List.append_nil]
  · simp
  · intro l hl
    simp only [List.append_assoc, List.mem_append] at hl
    rcases hl with h | h | h | h
    · exact hnlp l h
    · rcases List.mem_cons.mp h with h | h
      · subst h; simp
      · have : l = startMarker := List.mem_singleton.mp h
        subst this; decide
    · exact hnlm l h
    · rcases List.mem_cons.mp h with h | h
      · subst h; decide
      · have : l = [] := List.mem_singleton.mp h
        subst this; simp

/-- Characterization of the managed section produced by a successful
update: it depends only on the timestamp and the blocked-domain set. -/
theorem managedSection_update {now : List Char} {S : List (List Char)}
    {c out : List Char} (hnow : wfTimestamp now = true)
    (hupd : update_blocked_domains now S c = some out) :
    managedSection out =
      if S.isEmpty then [] else sectionFor now (clean_domains S) := by
  obtain ⟨hout, _⟩ := update_some_out hupd
  subst hout
  by_cases hS : S.isEmpty
  · rw [if_pos hS]
    have hlines : updateLines now S c = extract_non_parental_lines c := by
      unfold updateLines
      rw [if_pos hS]
    rw [hlines]
    exact managedSection_no_section _ (preserved_ne_nil c)
      (preserved_no_newline c) (preserved_no_marker c)
  · rw [if_neg hS]
    have hlines : updateLines now S c =
        extract_non_parental_lines c ++ [[], startMarker] ++
          sectionFor now (clean_domains S) ++ [endMarker, []] := by
      unfold updateLines
      rw [if_neg hS]
    rw [hlines]
    exact managedSection_with_section _ _ (preserved_no_newline c)
      (preserved_no_marker c)
      (fun l hl => (section_lines_ok now (clean_domains S) hnow
        (fun d hd => clean_domains_pattern hd) l hl).1)
      (fun l hl => (section_lines_ok now (clean_domains S) hnow
        (fun d hd => clean_domains_pattern hd) l hl).2)

/-- Counterexample for C4: two successive applies of the same domain set
succeed but produce different managed sections, because the section embeds
a `# Updated: <timestamp>` comment line and the second apply renders a
later clock reading. -/
theorem C4_counterexample :
    ((update_blocked_domains (strL "2025-01-01 10:00:00") [strL "example.com"]
        (strL "127.0.0.1\tlocalhost")).bind fun o1 =>
      (update_blocked_domains (strL "2025-01-01 10:00:01") [strL "example.com"] o1).map
        fun o2 => managedSection o1 == managedSection o2) = some false := by
  decide

/-- Claim C4 (amended): two successive successful applies of the same
blocked-domain set produce byte-identical managed sections whenever both
render the same timestamp (the generated section depends only on the
timestamp and the domain set; only the `# Updated:` comment line can
differ between real calls). -/
theorem C4_sections_idempotent (now : List Char) (S : List (List Char))
    (c out1 out2 : List Char) (hnow : wfTimestamp now = true)
    (h1 : update_blocked_domains now S c = some out1)
    (h2 : update_blocked_domains now S out1 = some out2) :
    managedSection out2 = managedSection out1 := by
  rw [managedSection_update hnow h1, managedSection_update hnow h2]

set_option maxRecDepth 4000 in
/-- Witness for C4 at concrete content, domain set and timestamp. -/
theorem C4_witness :
    managedSection (strL "127.0.0.1\tlocalhost\n::1\tlocalhost\tip6-localhost\tip6-loopback\nfe00::0\tip6-localnet\nff00::0\tip6-mcastprefix\nff02::1\tip6-allnodes\nff02::2\tip6-allrouters\n\n\n\n# Ubuntu Parental Control - START\n# Updated: 2025-01-01 10:00:00\n# Blocking 1 domains\n127.0.0.1\texample.com\n# Ubuntu Parental Control - END\n") =
      managedSection (strL "127.0.0.1\tlocalhost\n::1\tlocalhost\tip6-localhost\tip6-loopback\nfe00::0\tip6-localnet\nff00::0\tip6-mcastprefix\nff02::1\tip6-allnodes\nff02::2\tip6-allrouters\n\n# Ubuntu Parental Control - START\n# Updated: 2025-01-01 10:00:00\n# Blocking 1 domains\n127.0.0.1\texample.com\n# Ubuntu Parental Control - END\n") :=
  C4_sections_idempotent (strL "2025-01-01 10:00:00") [strL "example.com"]
    (strL "127.0.0.1\tlocalhost")
    (strL "127.0.0.1\tlocalhost\n::1\tlocalhost\tip6-localhost\tip6-loopback\nfe00::0\tip6-localnet\nff00::0\tip6-mcastprefix\nff02::1\tip6-allnodes\nff02::2\tip6-allrouters\n\n# Ubuntu Parental Control - START\n# Updated: 2025-01-01 10:00:00\n# Blocking 1 domains\n127.0.0.1\texample.com\n# Ubuntu Parental Control - END\n")
    (strL "127.0.0.1\tlocalhost\n::1\tlocalhost\tip6-localhost\tip6-loopback\nfe00::0\tip6-localnet\nff00::0\tip6-mcastprefix\nff02::1\tip6-allnodes\nff02::2\tip6-allrouters\n\n\n\n# Ubuntu Parental Control - START\n# Updated: 2025-01-01 10:00:00\n# Blocking 1 domains\n127.0.0.1\texample.com\n# Ubuntu Parental Control - END\n")
    (by decide) (by decide) (by decide)

/-! ### Helper lemmas: reading back the generated section -/

/-- A generated blocking line contains no `#`. -/
theorem blockedLine_no_hash {d : List Char} (hpat : domainPatternMatch d = true) :
    '#' ∉ blockedLine d := by
  intro hm
  unfold blockedLine at hm
  rcases List.mem_append.mp hm with h | h
  · exact absurd h (by decide)
  · rcases List.mem_cons.mp h with h | h
    · exact absurd h (by decide)
    · exact ((domainChar_props hpat '#' h).2.1 rfl).elim

/-- The domain collector skips a comment line inside the section. -/
theorem gcLoop_true_comment (line : List Char) (rest : List (List Char))
    (hm : isMarkerStart line = false ∧ isMarkerEnd line = false)
    (hh : startsWithHash (pyStrip line) = true) :
    gcLoop true (line :: rest) = gcLoop true rest := by
  simp only [gcLoop, hm.1, hm.2, Bool.false_eq_true, if_false, if_true]
  rw [hh]
  simp

/-- The domain collector collects a generated blocking line inside the
section. -/
theorem gcLoop_true_blocked (d : List Char) (rest : List (List Char))
    (hpat : domainPatternMatch d = true) :
    gcLoop true (blockedLine d :: rest) = d :: gcLoop true rest := by
  have hchars := domainChar_props hpat
  have hne : d ≠ [] := domain_nonempty hpat
  have hm := noMarker_of_no_hash (blockedLine_no_hash hpat)
  have hstrip : pyStrip (blockedLine d) = blockedLine d := by
    apply pyStrip_eq_self
    · intro c hc
      rw [show (blockedLine d).head? = some '1' from rfl] at hc
      rw [Option.some_inj] at hc
      subst hc
      decide
    · intro c hc
      rcases List.eq_nil_or_concat d with h | ⟨l2, a, h⟩
      · exact absurd h hne
      · subst h
        have harr : blockedLine (l2.concat a) =
            (strL "127.0.0.1" ++ '\t' :: l2) ++ [a] := by
          simp [blockedLine, List.concat_eq_append]
        rw [harr, List.getLast?_concat] at hc
        rw [Option.some_inj] at hc
        subst hc
        exact (hchars a (by simp [List.concat_eq_append])).1
  have hsplit : pySplitWS (blockedLine d) = [strL "127.0.0.1", d] :=
    pySplitWS_two_fields (strL "127.0.0.1") d '\t' (by decide) (by decide) hne
      (by decide) (fun c hc => (hchars c hc).1)
  simp only [gcLoop, hm.1, hm.2, Bool.false_eq_true, if_false, if_true, hstrip,
    hsplit]
  have hcond1 : (blockedLine d).isEmpty = false := by simp [blockedLine, strL]
  have hcond2 : startsWithHash (blockedLine d) = false := rfl
  simp [hcond1, hcond2]

/-- The domain collector reads a run of generated blocking lines followed
by the end marker as exactly the listed domains. -/
theorem gcLoop_true_blockedList (cd : List (List Char))
    (hcd : ∀ d ∈ cd, domainPatternMatch d = true) :
    gcLoop true (cd.map blockedLine ++ [endMarker, []]) = cd := by
  induction cd with
  | nil => decide
  | cons d cds ih =>
    rw [List.map_cons, List.cons_append,
      gcLoop_true_blocked d _ (hcd d (List.mem_cons_self d cds))]
    rw [ih (fun x hx => hcd x (List.mem_cons_of_mem d hx))]

/-- The domain collector reads the generated section back as exactly the
cleaned sorted domain list. -/
theorem gcLoop_true_section (now : List Char) (cd : List (List Char))
    (hnow : wfTimestamp now = true)
    (hcd : ∀ d ∈ cd, domainPatternMatch d = true) :
    gcLoop true (sectionFor now cd ++ [endMarker, []]) = cd := by
  have hsec := section_lines_ok now cd hnow hcd
  unfold sectionFor
  have h1 : startsWithHash (pyStrip (strL "# Updated: " ++ now)) = true := by
    rw [show strL "# Updated: " ++ now = '#' :: (strL " Updated: " ++ now) from rfl]
    rw [pyStrip_hash]
    rfl
  have h2 : startsWithHash (pyStrip (strL "# Blocking " ++ natDigits cd.length ++
      strL " domains")) = true := by
    rw [show strL "# Blocking " ++ natDigits cd.length ++ strL " domains" =
      '#' :: (strL " Blocking " ++ natDigits cd.length ++ strL " domains") from by
        simp [strL]]
    rw [pyStrip_hash]
    rfl
  rw [List.cons_append, List.cons_append]
  rw [gcLoop_true_comment _ _ (hsec _ (by simp [sectionFor])).2 h1]
  rw [gcLoop_true_comment _ _ (hsec _ (by simp [sectionFor])).2 h2]
  exact gcLoop_true_blockedList cd hcd

/-- Claim C10: after a successful `update_blocked_domains(S)`,
`get_current_blocked_domains` reads back exactly the cleaned domain list of
`S` (strip/lowercase, validity filter, deduplication, sorted), and the
managed section is the generated one — in particular, applying the empty
set produces no managed section and an empty read-back. -/
theorem C10_round_trip (now : List Char) (S : List (List Char)) (c out : List Char)
    (hnow : wfTimestamp now = true)
    (hupd : update_blocked_domains now S c = some out) :
    get_current_blocked_domains out = clean_domains S ∧
    managedSection out =
      (if S.isEmpty then [] else sectionFor now (clean_domains S)) := by
  obtain ⟨hout, _⟩ := update_some_out hupd
  refine ⟨?_, managedSection_update hnow hupd⟩
  subst hout
  unfold get_current_blocked_domains
  rw [show splitLines (joinLines (updateLines now S c)) = updateLines now S c
    from splitLines_updateLines now S c hnow]
  by_cases hS : S.isEmpty
  · have hlines : updateLines now S c = extract_non_parental_lines c := by
      unfold updateLines
      rw [if_pos hS]
    rw [hlines, gcLoop_false_all_skip _ (preserved_no_marker c)]
    have hSnil : S = [] := by simpa using hS
    subst hSnil
    rfl
  · have hlines : updateLines now S c =
        extract_non_parental_lines c ++ [[], startMarker] ++
          sectionFor now (clean_domains S) ++ [endMarker, []] := by
      unfold updateLines
      rw [if_neg hS]
    rw [hlines]
    have hskip : ∀ l ∈ extract_non_parental_lines c ++ [([] : List Char)],
        isMarkerStart l = false ∧ isMarkerEnd l = false := by
      intro l hl
      rcases List.mem_append.mp hl with h | h
      · exact preserved_no_marker c l h
      · have : l = [] := List.mem_singleton.mp h
        subst this
        decide
    have harr : extract_non_parental_lines c ++ [[], startMarker] ++
        sectionFor now (clean_domains S) ++ [endMarker, []] =
        (extract_non_parental_lines c ++ [[]]) ++
          (startMarker :: (sectionFor now (clean_domains S) ++ [endMarker, []])) := by
      simp
    rw [harr, gcLoop_false_skip _ _ hskip]
    have hstart : isMarkerStart startMarker = true := by decide
    simp only [gcLoop, hstart, if_true]
    exact gcLoop_true_section now (clean_domains S) hnow
      (fun d hd => clean_domains_pattern hd)

/-! ### Helper lemmas: system entry coverage -/

/-- Parsing distributes over appended line lists. -/
theorem parsedEntries_append (a b : List (List Char)) :
    parsedEntries (a ++ b) = parsedEntries a ++ parsedEntries b := by
  unfold parsedEntries
  exact List.filterMap_append a b parseHostsLine

/-- After re-injection, every system ip is covered by some parsed entry of
the preserved lines. -/
theorem ensure_covers (content : List Char) :
    ∀ e ∈ system_entries,
      ∃ x ∈ parsedEntries (extract_non_parental_lines content),
        (x.1 == e.1 && e.2.any (fun h => x.2.contains h)) = true := by
  intro e he
  unfold extract_non_parental_lines ensure_system_entries
  by_cases hf : (parsedEntries (extractLoop false (splitLines content))).any
      (fun x => x.1 == e.1 && e.2.any (fun h => x.2.contains h)) = true
  · obtain ⟨x, hx, hmatch⟩ := List.any_eq_true.mp hf
    refine ⟨x, ?_, hmatch⟩
    rw [parsedEntries_append]
    exact List.mem_append_left _ hx
  · refine ⟨(e.1, e.2), ?_, system_entry_self_match e he⟩
    rw [parsedEntries_append]
    apply List.mem_append_right
    apply List.mem_filterMap.mpr
    refine ⟨systemEntryLine e, ?_, system_entry_parse e he⟩
    apply List.mem_filterMap.mpr
    refine ⟨e, he, ?_⟩
    rw [if_neg hf]

/-- Coverage is preserved when further lines are appended. -/
theorem systemEntriesPresent_append (a b : List (List Char))
    (h : ∀ e ∈ system_entries,
      ∃ x ∈ parsedEntries a,
        (x.1 == e.1 && e.2.any (fun hn => x.2.contains hn)) = true) :
    systemEntriesPresent (a ++ b) = true := by
  unfold systemEntriesPresent
  apply List.all_eq_true.mpr
  intro e he
  obtain ⟨x, hx, hmatch⟩ := h e he
  apply List.any_eq_true.mpr
  refine ⟨x, ?_, hmatch⟩
  rw [parsedEntries_append]
  exact List.mem_append_left _ hx

/-- Claim C5: a successful hosts-file apply yields content covering every
mandatory system entry (missing ones re-injected), passing validation;
the preserved (non-managed) lines of the input survive as a prefix of the
output lines; and validation holds exactly when some line is a
`127.0.0.1 … localhost …` entry — content missing it never validates. -/
theorem C5_system_entries (now : List Char) (S : List (List Char))
    (c out : List Char) (hnow : wfTimestamp now = true)
    (hupd : update_blocked_domains now S c = some out) :
    systemEntriesPresent (splitLines out) = true ∧
    validate_hosts_content out = true ∧
    extractLoop false (splitLines c) <+: splitLines out ∧
    (∀ c2 : List Char, validate_hosts_content c2 =
      (splitOnChar '\n' (pyStrip c2)).any isLocalhostLine) := by
  obtain ⟨hout, hval⟩ := update_some_out hupd
  have hvo : validate_hosts_content out = true := by rw [hout]; exact hval
  subst hout
  rw [splitLines_updateLines now S c hnow]
  have hexp : ∃ rest, updateLines now S c = extract_non_parental_lines c ++ rest := by
    unfold updateLines
    split
    · exact ⟨[], by simp⟩
    · exact ⟨[[], startMarker] ++ sectionFor now (clean_domains S) ++ [endMarker, []],
        by simp⟩
  obtain ⟨rest, hrest⟩ := hexp
  refine ⟨?_, hvo, ?_, fun c2 => rfl⟩
  · rw [hrest]
    exact systemEntriesPresent_append _ _ (ensure_covers c)
  · rw [hrest]
    unfold extract_non_parental_lines ensure_system_entries
    have : extractLoop false (splitLines c) ++
        (system_entries.filterMap fun e =>
          if (parsedEntries (extractLoop false (splitLines c))).any
              (fun x => x.1 == e.1 && e.2.any (fun h => x.2.contains h)) then none
          else some (systemEntryLine e)) ++ rest =
        extractLoop false (splitLines c) ++
          ((system_entries.filterMap fun e =>
            if (parsedEntries (extractLoop false (splitLines c))).any
                (fun x => x.1 == e.1 && e.2.any (fun h => x.2.contains h)) then none
            else some (systemEntryLine e)) ++ rest) := by
      simp
    rw [this]
    exact List.prefix_append _ _

set_option maxRecDepth 4000 in
/-- Witness for C5 at concrete content, domain set and timestamp. -/
theorem C5_witness :
    systemEntriesPresent (splitLines (strL "127.0.0.1\tlocalhost\n::1\tlocalhost\tip6-localhost\tip6-loopback\nfe00::0\tip6-localnet\nff00::0\tip6-mcastprefix\nff02::1\tip6-allnodes\nff02::2\tip6-allrouters\n\n# Ubuntu Parental Control - START\n# Updated: 2025-01-01 10:00:00\n# Blocking 1 domains\n127.0.0.1\texample.com\n# Ubuntu Parental Control - END\n")) = true ∧
    validate_hosts_content (strL "127.0.0.1\tlocalhost\n::1\tlocalhost\tip6-localhost\tip6-loopback\nfe00::0\tip6-localnet\nff00::0\tip6-mcastprefix\nff02::1\tip6-allnodes\nff02::2\tip6-allrouters\n\n# Ubuntu Parental Control - START\n# Updated: 2025-01-01 10:00:00\n# Blocking 1 domains\n127.0.0.1\texample.com\n# Ubuntu Parental Control - END\n") = true ∧
    extractLoop false (splitLines (strL "127.0.0.1\tlocalhost")) <+:
      splitLines (strL "127.0.0.1\tlocalhost\n::1\tlocalhost\tip6-localhost\tip6-loopback\nfe00::0\tip6-localnet\nff00::0\tip6-mcastprefix\nff02::1\tip6-allnodes\nff02::2\tip6-allrouters\n\n# Ubuntu Parental Control - START\n# Updated: 2025-01-01 10:00:00\n# Blocking 1 domains\n127.0.0.1\texample.com\n# Ubuntu Parental Control - END\n") ∧
    (∀ c2 : List Char, validate_hosts_content c2 =
      (splitOnChar '\n' (pyStrip c2)).any isLocalhostLine) :=
  C5_system_entries (strL "2025-01-01 10:00:00") [strL "example.com"]
    (strL "127.0.0.1\tlocalhost")
    (strL "127.0.0.1\tlocalhost\n::1\tlocalhost\tip6-localhost\tip6-loopback\nfe00::0\tip6-localnet\nff00::0\tip6-mcastprefix\nff02::1\tip6-allnodes\nff02::2\tip6-allrouters\n\n# Ubuntu Parental Control - START\n# Updated: 2025-01-01 10:00:00\n# Blocking 1 domains\n127.0.0.1\texample.com\n# Ubuntu Parental Control - END\n")
    (by decide) (by decide)

set_option maxRecDepth 4000 in
/-- Witness for C10 at concrete content, domain set and timestamp. -/
theorem C10_witness :
    get_current_blocked_domains (strL "127.0.0.1\tlocalhost\n::1\tlocalhost\tip6-localhost\tip6-loopback\nfe00::0\tip6-localnet\nff00::0\tip6-mcastprefix\nff02::1\tip6-allnodes\nff02::2\tip6-allrouters\n\n# Ubuntu Parental Control - START\n# Updated: 2025-01-01 10:00:00\n# Blocking 1 domains\n127.0.0.1\texample.com\n# Ubuntu Parental Control - END\n") =
      clean_domains [strL "example.com"] ∧
    managedSection (strL "127.0.0.1\tlocalhost\n::1\tlocalhost\tip6-localhost\tip6-loopback\nfe00::0\tip6-localnet\nff00::0\tip6-mcastprefix\nff02::1\tip6-allnodes\nff02::2\tip6-allrouters\n\n# Ubuntu Parental Control - START\n# Updated: 2025-01-01 10:00:00\n# Blocking 1 domains\n127.0.0.1\texample.com\n# Ubuntu Parental Control - END\n") =
      (if ([strL "example.com"] : List (List Char)).isEmpty then []
       else sectionFor (strL "2025-01-01 10:00:00") (clean_domains [strL "example.com"])) :=
  C10_round_trip (strL "2025-01-01 10:00:00") [strL "example.com"]
    (strL "127.0.0.1\tlocalhost")
    (strL "127.0.0.1\tlocalhost\n::1\tlocalhost\tip6-localhost\tip6-loopback\nfe00::0\tip6-localnet\nff00::0\tip6-mcastprefix\nff02::1\tip6-allnodes\nff02::2\tip6-allrouters\n\n# Ubuntu Parental Control - START\n# Updated: 2025-01-01 10:00:00\n# Blocking 1 domains\n127.0.0.1\texample.com\n# Ubuntu Parental Control - END\n")
    (by decide) (by decide)

/-! ### Helper lemmas: domain normalization (claim C3) -/

/-- Valid code points below the surrogate range round-trip through
`Char.ofNat`. -/
theorem toNat_ofNat_valid (n : Nat) (h : n < 55296) : (Char.ofNat n).toNat = n := by
  have hv : n.isValidChar := Or.inl h
  rw [Char.ofNat, dif_pos hv]
  rfl

/-- `Char.toLower` never returns an ASCII uppercase letter. -/
theorem toLower_not_upper (c : Char) :
    ¬(65 ≤ (Char.toLower c).toNat ∧ (Char.toLower c).toNat ≤ 90) := by
  unfold Char.toLower
  by_cases h : c.toNat ≥ 65 ∧ c.toNat ≤ 90
  · rw [if_pos h]
    rw [toNat_ofNat_valid (c.toNat + 32) (by omega)]
    omega
  · rw [if_neg h]
    omega

/-- `Char.toLower` fixes characters that are not ASCII uppercase. -/
theorem toLower_eq_self (c : Char) (h : ¬(65 ≤ c.toNat ∧ c.toNat ≤ 90)) :
    Char.toLower c = c := by
  unfold Char.toLower
  exact if_neg h

/-- Mapping a function that fixes every member is the identity. -/
theorem map_eq_self_of_forall {f : Char → Char} {l : List Char}
    (h : ∀ c ∈ l, f c = c) : l.map f = l := by
  induction l with
  | nil => rfl
  | cons c rest ih =>
    rw [List.map_cons, h c (List.mem_cons_self c rest),
      ih (fun x hx => h x (List.mem_cons_of_mem c hx))]

/-- Characters that survive the normalization chain come from the input or
from the injected `http://` prefix. -/
theorem stripScheme_mem {x : List Char} {ch : Char} (h : ch ∈ stripScheme x) :
    ch ∈ x ∨ ch ∈ strL "http://" := by
  have hurl : ∀ u : List Char,
      (u = x ∨ u = strL "http://" ++ x) → ch ∈ u → ch ∈ x ∨ ch ∈ strL "http://" := by
    intro u hu hm
    rcases hu with hu | hu
    · exact Or.inl (hu ▸ hm)
    · subst hu
      rcases List.mem_append.mp hm with hm | hm
      · exact Or.inr hm
      · exact Or.inl hm
  simp only [stripScheme] at h
  split at h <;> split at h <;> split at h <;>
    first
    | exact hurl _ (Or.inl rfl)
        ((List.drop_sublist _ _).mem ((List.takeWhile_sublist _).mem h))
    | exact hurl _ (Or.inl rfl)
        ((List.drop_sublist _ _).mem ((List.takeWhile_sublist _).mem
          ((List.takeWhile_sublist _).mem h)))
    | exact hurl _ (Or.inr rfl)
        ((List.drop_sublist _ _).mem ((List.takeWhile_sublist _).mem h))
    | exact hurl _ (Or.inr rfl)
        ((List.drop_sublist _ _).mem ((List.takeWhile_sublist _).mem
          ((List.takeWhile_sublist _).mem h)))

/-- Dropping the injected scheme prefix recovers the original string. -/
theorem drop7_http (x : List Char) :
    List.drop 7 (strL "http://" ++ x) = x := rfl

/-- Dropping eight characters of the injected prefix reaches the tail. -/
theorem drop8_http (x : List Char) :
    List.drop 8 (strL "http://" ++ x) = x.drop 1 := rfl

/-- The scheme-stripping step only removes characters. -/
theorem stripScheme_sublist (x : List Char) : List.Sublist (stripScheme x) x := by
  simp only [stripScheme]
  split <;> split <;> split <;>
    (try simp only [drop7_http, drop8_http]) <;>
    first
    | exact List.takeWhile_sublist _
    | exact (List.takeWhile_sublist _).trans (List.takeWhile_sublist _)
    | exact (List.takeWhile_sublist _).trans (List.drop_sublist _ _)
    | exact ((List.takeWhile_sublist _).trans (List.takeWhile_sublist _)).trans
        (List.drop_sublist _ _)

/-- The whole removal chain only removes characters. -/
theorem normalizeCore_sublist (x : List Char) :
    List.Sublist (normalizeCore x) x := by
  have s1 : ∀ y : List Char,
      List.Sublist (if containsSub (strL "://") y = true then stripScheme y else y) y := by
    intro y
    split
    · exact stripScheme_sublist y
    · exact List.Sublist.refl y
  have s2 : ∀ y : List Char,
      List.Sublist (if startsWith (strL "www.") y = true then y.drop 4 else y) y := by
    intro y
    split
    · exact List.drop_sublist 4 y
    · exact List.Sublist.refl y
  have s3 : ∀ y : List Char,
      List.Sublist
        (if y.contains '/' = true then y.takeWhile (fun c => !(c = '/')) else y) y := by
    intro y
    split
    · exact List.takeWhile_sublist _
    · exact List.Sublist.refl y
  have s4 : ∀ y : List Char,
      List.Sublist
        (if (y.contains ':' && !ipPatternMatch y) = true then
          y.takeWhile (fun c => !(c = ':')) else y) y := by
    intro y
    split
    · exact List.takeWhile_sublist _
    · exact List.Sublist.refl y
  exact (((s4 _).trans (s3 _)).trans (s2 _)).trans (s1 x)

/-- A `contains`-negative list lacks the element. -/
theorem not_mem_of_contains_eq_false {l : List Char} {a : Char}
    (h : l.contains a = false) : a ∉ l := by
  intro hm
  have hmm := List.elem_eq_true_of_mem hm
  rw [show l.contains a = l.elem a from rfl, hmm] at h
  cases h

/-- When none of its triggers are present, the removal chain is the
identity. -/
theorem normalizeCore_id (x : List Char)
    (h1 : containsSub (strL "://") x = false)
    (h2 : startsWith (strL "www.") x = false)
    (h3 : x.contains '/' = false)
    (h4 : x.contains ':' = false) : normalizeCore x = x := by
  simp only [normalizeCore]
  have e1 : (if containsSub (strL "://") x = true then stripScheme x else x) = x :=
    if_neg (by simp [h1])
  rw [e1]
  have e2 : (if startsWith (strL "www.") x = true then x.drop 4 else x) = x :=
    if_neg (by simp [h2])
  rw [e2]
  have e3 : (if x.contains '/' = true then x.takeWhile (fun c => !(c = '/')) else x) = x :=
    if_neg (by simp [not_mem_of_contains_eq_false h3])
  rw [e3]
  exact if_neg (by simp [not_mem_of_contains_eq_false h4])

/-- A character whose class is neither a label character nor the dot never
occurs in a matching domain. -/
theorem domain_not_mem {dd : List Char} (h : domainPatternMatch dd = true)
    {x : Char} (hx1 : isLabelChar x = false) (hx2 : ¬x = '.') : x ∉ dd := by
  intro hm
  rcases domain_chars h x hm with hl | hdot
  · rw [hl] at hx1
    cases hx1
  · exact hx2 hdot

/-- Characterization of a successful validation: the canonical result
matches the domain regex, passes the dot checks, is at most 253 characters
and contains no ASCII uppercase letter. -/
theorem validate_domain_props {d c : List Char} (h : validate_domain d = some c) :
    domainPatternMatch c = true ∧
    startsWith (strL ".") c = false ∧ endsWith (strL ".") c = false ∧
    containsSub (strL "..") c = false ∧
    c.length ≤ 253 ∧
    (∀ ch ∈ c, ¬(65 ≤ ch.toNat ∧ ch.toNat ≤ 90)) := by
  have hd1NU : ∀ ch ∈ pyLower (pyStrip d), ¬(65 ≤ ch.toNat ∧ ch.toNat ≤ 90) := by
    intro ch hch
    rcases List.mem_map.mp hch with ⟨a, _, ha⟩
    exact ha ▸ toLower_not_upper a
  simp only [validate_domain] at h
  split at h
  · cases h
  split at h
  · cases h
  split at h
  · cases h
  split at h
  · cases h
  split at h
  · cases h
  rename_i g1 g2 g3 g4 g5
  rw [Option.some_inj] at h
  subst h
  have hlen1 : (pyLower (pyStrip d)).length ≤ 253 := by
    simp only [decide_eq_true_eq] at g2
    omega
  refine ⟨by simpa using g3, ?_, ?_, by simpa using g5, ?_, ?_⟩
  · simp only [Bool.or_eq_true, not_or] at g4
    simpa using g4.1
  · simp only [Bool.or_eq_true, not_or] at g4
    simpa using g4.2
  · exact le_trans (normalizeCore_sublist _).length_le hlen1
  · intro ch hch
    exact hd1NU ch ((normalizeCore_sublist _).mem hch)

/-- Counterexample for C3: `www.www.example.com` validates to
`www.example.com`, but re-validating that canonical result strips another
`www.` and produces `example.com` — normalization is not idempotent. -/
theorem C3_counterexample :
    validate_domain (strL "www.www.example.com") = some (strL "www.example.com") ∧
    validate_domain (strL "www.example.com") ≠ some (strL "www.example.com") := by
  constructor
  · decide
  · decide

/-- Claim C3 (amended): for every accepted input whose canonical result
does not itself start with `www.`, re-validating the canonical result
succeeds and returns it unchanged. -/
theorem C3_normalize_idempotent (d c : List Char)
    (h : validate_domain d = some c)
    (hw : startsWith (strL "www.") c = false) :
    validate_domain c = some c := by
  obtain ⟨hpat, hdot1, hdot2, hddot, hlen, hNU⟩ := validate_domain_props h
  have hchars := domainChar_props hpat
  have hne : c ≠ [] := domain_nonempty hpat
  have hslash : '/' ∉ c := domain_not_mem hpat (by decide) (by decide)
  have hcolon : ':' ∉ c := domain_not_mem hpat (by decide) (by decide)
  have hstrip : pyStrip c = c := by
    apply pyStrip_eq_self
    · intro ch hch
      exact (hchars ch (List.mem_of_mem_head? hch)).1
    · intro ch hch
      apply (hchars ch (List.mem_of_mem_getLast? ?_)).1
      rw [Option.mem_def]
      exact hch
  have hlower : pyLower c = c :=
    map_eq_self_of_forall (fun ch hch => toLower_eq_self ch (hNU ch hch))
  have hsub : containsSub (strL "://") c = false := by
    by_contra hq
    rw [Bool.not_eq_false] at hq
    exact hcolon (mem_of_containsSub hq ':' (by decide))
  have hcs : c.contains '/' = false := by
    rw [Bool.eq_false_iff]
    intro hq
    exact hslash (List.elem_iff.mp hq)
  have hcc : c.contains ':' = false := by
    rw [Bool.eq_false_iff]
    intro hq
    exact hcolon (List.elem_iff.mp hq)
  simp only [validate_domain, hstrip, hlower]
  rw [if_neg (by simp [hne]), if_neg (by simp; omega),
    normalizeCore_id c hsub hw hcs hcc,
    if_neg (by simp [hpat]), if_neg (by simp [hdot1, hdot2]),
    if_neg (by simp [hddot])]

/-- Witness for C3: re-validating the canonical result of
`www.example.com` is the identity. -/
theorem C3_witness : validate_domain (strL "example.com") = some (strL "example.com") :=
  C3_normalize_idempotent (strL "www.example.com") (strL "example.com")
    (by decide) (by decide)
